import Mathlib

/-
Verification development for the `fir` synchronizer (src/sync.ts, src/nodes.ts,
src/queries.ts): a shallow embedding of the synchronization and trimming engine
over an explicit store state, together with theorems settling the frozen claims.

The persistent store (an iModel) is an external collaborator of the repository;
it is modelled here as four finite tables (elements, models, aspects, link-table
relationships) with a fresh-id counter.  Following the BIS store used by the
code, a model row is keyed by the id of its modeled element: the store id of a
model equals the id of the element it models (the repository tests rely on this
by calling `trim` on a Model).  The two sentinels are the root subject element
(id 1) and the repository model (id 1, a distinct table).
-/

namespace Fir

/-- Value of one key in the `fir` namespace of an element's JSON properties:
either the presence marker `null` written on relationship endpoints, or the
bookkeeping record `{id, fullClass, source, target}` written on the store
sentinel. -/
inductive TagValue where
  | presence : TagValue
  | relMeta (id : Nat) (fullClass : String) (source : Nat) (target : Nat) : TagValue
deriving DecidableEq, Repr

/-- A side attachment (aspect) declared on an element node; pure payload. -/
structure Aspect where
  classFullName : String
  props : String
deriving DecidableEq, Repr

mutual

/-- An element node of the description, or the root subject sentinel marker. -/
inductive Element where
  | rootSubject : Element
  | node : ElementNode → Element

/-- The payload of a non-sentinel element node (src/nodes.ts `ElementPatch`):
class, containing model, optional parent, provenance meta, optional aspects,
optional user JSON, and the remaining mapped fields collapsed into `props`. -/
inductive ElementNode where
  | mk (classFullName : String) (model : Model) (parent : Option EParent)
       (meta : Meta) (aspects : Option (List Aspect))
       (jsonProps : Option String) (props : String) : ElementNode

/-- A parent reference: a bare element, or an element paired with an explicit
parent-relationship class (src/nodes.ts: `Element | {element, relationship}`). -/
inductive EParent where
  | plain (e : Element) : EParent
  | withRel (e : Element) (relClass : String) : EParent

/-- An external source aspect node (src/nodes.ts `ExternalSourceAspectPatch`):
scope, optional source element, anchor, kind, optional version and checksum. -/
inductive Meta where
  | mk (scope : Element) (source : Option Element) (anchor : String)
       (kind : String) (version : Option String) (checksum : Option String) : Meta

/-- A model node of the description, or the repository model sentinel marker. -/
inductive Model where
  | repository : Model
  | node : ModelNode → Model

/-- The payload of a non-sentinel model node (src/nodes.ts `ModelPatch`). -/
inductive ModelNode where
  | mk (classFullName : String) (parentModel : Option Model)
       (modeledElement : Element) (jsonProps : Option String) (props : String) : ModelNode

end

def ElementNode.classFullName : ElementNode → String
  | .mk c _ _ _ _ _ _ => c

def ElementNode.model : ElementNode → Model
  | .mk _ m _ _ _ _ _ => m

def ElementNode.parent : ElementNode → Option EParent
  | .mk _ _ p _ _ _ _ => p

def ElementNode.meta : ElementNode → Meta
  | .mk _ _ _ m _ _ _ => m

def ElementNode.aspects : ElementNode → Option (List Aspect)
  | .mk _ _ _ _ a _ _ => a

def ElementNode.jsonProps : ElementNode → Option String
  | .mk _ _ _ _ _ j _ => j

def ElementNode.props : ElementNode → String
  | .mk _ _ _ _ _ _ p => p

def Meta.scope : Meta → Element
  | .mk s _ _ _ _ _ => s

def Meta.source : Meta → Option Element
  | .mk _ s _ _ _ _ => s

def Meta.anchor : Meta → String
  | .mk _ _ a _ _ _ => a

def Meta.kind : Meta → String
  | .mk _ _ _ k _ _ => k

def Meta.version : Meta → Option String
  | .mk _ _ _ _ v _ => v

def Meta.checksum : Meta → Option String
  | .mk _ _ _ _ _ c => c

def ModelNode.classFullName : ModelNode → String
  | .mk c _ _ _ _ => c

def ModelNode.parentModel : ModelNode → Option Model
  | .mk _ p _ _ _ => p

def ModelNode.modeledElement : ModelNode → Element
  | .mk _ _ e _ _ => e

def ModelNode.jsonProps : ModelNode → Option String
  | .mk _ _ _ j _ => j

def ModelNode.props : ModelNode → String
  | .mk _ _ _ _ p => p

/-- A link-table relationship node (src/nodes.ts `Relationship`, declared in
the repository but consumed in src/sync.ts via its `classFullName`, `anchor`,
`source` and `target` fields). -/
structure Rel where
  classFullName : String
  anchor : String
  source : Element
  target : Element

/-- The argument union of `put` and `sync`: an Element, a Model, or a
Relationship (src/sync.ts narrows the union at runtime; here it is tagged). -/
inductive Branch where
  | elem (e : Element) : Branch
  | model (m : Model) : Branch
  | rel (r : Rel) : Branch

-- The BIS class-name constants used by the code.

def externalSourceAspectClass : String := "BisCore:ExternalSourceAspect"

def subjectOwnsPartitionElementsClass : String := "BisCore:SubjectOwnsPartitionElements"

def categoryOwnsSubCategoriesClass : String := "BisCore:CategoryOwnsSubCategories"

def elementOwnsChildElementsClass : String := "BisCore:ElementOwnsChildElements"

def categoryClass : String := "BisCore:Category"

/-- Modelled from the spec: the set of BIS classes that are definition
elements, which `trim` deletes through the deferred-deletion store primitive
(`element instanceof backend.DefinitionElement` in src/sync.ts; the class
hierarchy itself lives in the external iTwin backend, not in the repository). -/
def isDefinitionClass (c : String) : Bool :=
  c = "BisCore:SpatialCategory" || c = "BisCore:DrawingCategory" ||
  c = "BisCore:SubCategory" || c = "BisCore:GeometryPart" || c = categoryClass

/-- Modelled from the spec: the classes denoting parent/child containment,
which the store refuses as link-table relationship classes (spec section 4.3;
the check is performed by the external backend's insert primitive, and the
repository's test asserts the resulting throw). -/
def isContainmentClass (c : String) : Bool :=
  c = elementOwnsChildElementsClass || c = subjectOwnsPartitionElementsClass ||
  c = categoryOwnsSubCategoriesClass

-- The store state.

/-- A persisted element row.  `firTags` is the `fir` namespace of the row's
JSON properties (`none` when the namespace is absent, `some []` when present
but empty); `userJson` is the caller-supplied remainder of the JSON properties;
`props` collapses the other mapped fields. -/
structure StoredElement where
  classFullName : String
  modelId : Nat
  parentId : Option Nat
  parentRel : Option String
  firTags : Option (List (String × TagValue))
  userJson : Option String
  props : String
deriving DecidableEq, Repr

/-- A persisted model row.  The row is keyed by the id of its modeled element
(the store invariant the repository's `trim`-on-a-Model tests depend on), so
the key is not repeated here. -/
structure StoredModel where
  classFullName : String
  parentModelId : Option Nat
  jsonProps : Option String
  props : String
deriving DecidableEq, Repr

/-- A persisted aspect row.  External source aspects carry the provenance
fields; other aspects use `classFullName` and `props` with zeroed provenance. -/
structure StoredAspect where
  ownerId : Nat
  classFullName : String
  scopeId : Nat
  sourceId : Option Nat
  kind : String
  anchor : String
  version : Option String
  checksum : Option String
  props : String
deriving DecidableEq, Repr

/-- A persisted link-table relationship instance. -/
structure StoredRel where
  classFullName : String
  sourceId : Nat
  targetId : Nat
deriving DecidableEq, Repr

/-- The store: four tables and a fresh-id counter. -/
structure IModel where
  nextId : Nat
  elements : List (Nat × StoredElement)
  models : List (Nat × StoredModel)
  aspects : List (Nat × StoredAspect)
  relationships : List (Nat × StoredRel)
deriving DecidableEq, Repr

def rootSubjectId : Nat := 1

def repositoryModelId : Nat := 1

/-- The initial store: the root subject element and the repository model. -/
def initIModel : IModel :=
  { nextId := 2
    elements := [(rootSubjectId,
      { classFullName := "BisCore:Subject", modelId := repositoryModelId
        parentId := none, parentRel := none
        firTags := none, userJson := none, props := "root" })]
    models := [(repositoryModelId,
      { classFullName := "BisCore:RepositoryModel", parentModelId := none
        jsonProps := none, props := "repository" })]
    aspects := []
    relationships := [] }

-- Pure store queries (src/queries.ts).

/-- Lookup an element row by id. -/
def IModel.element? (im : IModel) (id : Nat) : Option StoredElement :=
  (im.elements.lookup id)

/-- Lookup a model row by id. -/
def IModel.model? (im : IModel) (id : Nat) : Option StoredModel :=
  (im.models.lookup id)

/-- Lookup an aspect row by id. -/
def IModel.aspect? (im : IModel) (id : Nat) : Option StoredAspect :=
  (im.aspects.lookup id)

/-- Return the id of the model of an element if it is modeled
(src/queries.ts `modelOf`); with model rows keyed by their modeled element,
this is a key lookup. -/
def modelOf (im : IModel) (modeled : Nat) : Option Nat :=
  if (im.model? modeled).isSome then some modeled else none

/-- Return the ids of the immediate children of a model: elements contained in
the model with no parent (src/queries.ts `childrenOfModel`). -/
def childrenOfModel (im : IModel) (model : Nat) : List Nat :=
  (im.elements.filter (fun p => p.2.modelId = model && p.2.parentId = none)).map (·.1)

/-- Return the ids of the immediate children of an element
(src/queries.ts `childrenOfElement`). -/
def childrenOfElement (im : IModel) (element : Nat) : List Nat :=
  (im.elements.filter (fun p => p.2.parentId = some element)).map (·.1)

/-- Does the element have at least one external source aspect
(src/queries.ts `isManaged`)? -/
def isManaged (im : IModel) (element : Nat) : Bool :=
  im.aspects.any (fun p =>
    p.2.ownerId = element && p.2.classFullName = externalSourceAspectClass)

/-- Find an external source aspect by scope, kind and anchor
(`ExternalSourceAspect.findBySource`); returns the owning element's id and the
aspect's id. -/
def findBySource (im : IModel) (scope : Nat) (kind : String) (anchor : String) :
    Option Nat × Option Nat :=
  match im.aspects.find? (fun p =>
    p.2.classFullName = externalSourceAspectClass && p.2.scopeId = scope &&
    p.2.kind = kind && p.2.anchor = anchor) with
  | some (aid, a) => (some a.ownerId, some aid)
  | none => (none, none)

/-- The aspects owned by an element. -/
def aspectsOf (im : IModel) (element : Nat) : List (Nat × StoredAspect) :=
  im.aspects.filter (fun p => p.2.ownerId = element)

/-- The model modeling the given element, if any (`tryGetSubModel`); under the
keying invariant the model's id is the element's id. -/
def tryGetSubModel (im : IModel) (element : Nat) : Option Nat :=
  if (im.model? element).isSome then some element else none

-- The synchronizer state and monad.

/-- The mutable state of a `Sync` session: the store connection and the set of
ids the session has resolved (`touched`). -/
structure SyncState where
  imodel : IModel
  touched : List Nat
deriving DecidableEq, Repr

/-- Errors of the engine.  `outOfFuel` stands for a nonterminating dependency
chain (the documented recursion gap); `fatal` for the internal `throw Error`
calls; `invalidRelationshipClass` for the store's rejection of a containment
class in the link table. -/
inductive FirErr where
  | outOfFuel : FirErr
  | fatal : FirErr
  | invalidRelationshipClass : FirErr
deriving DecidableEq, Repr

/-- The engine monad: state passing where an error preserves the state reached
so far (store mutations made before a throw persist, as in the code). -/
def FirM (α : Type) : Type := SyncState → Except FirErr α × SyncState

instance : Monad FirM where
  pure a := fun s => (.ok a, s)
  bind m k := fun s =>
    match m s with
    | (.ok a, s1) => k a s1
    | (.error e, s1) => (.error e, s1)

def throwF {α : Type} (e : FirErr) : FirM α := fun s => (.error e, s)

def getS : FirM SyncState := fun s => (.ok s, s)

def modifyImodel (f : IModel → IModel) : FirM Unit :=
  fun s => (.ok (), { s with imodel := f s.imodel })

/-- Record an id in the session's touched set. -/
def addTouched (id : Nat) : FirM Unit :=
  fun s => (.ok (), { s with touched := s.touched.insert id })

-- Monadic store primitives.

/-- Insert an element row, returning its fresh id. -/
def insertElementM (row : StoredElement) : FirM Nat := fun s =>
  (.ok s.imodel.nextId,
   { s with imodel := { s.imodel with
       nextId := s.imodel.nextId + 1
       elements := (s.imodel.nextId, row) :: s.imodel.elements } })

/-- Fetch an element row; throws when the id is absent (`getElementProps`). -/
def getElementM (id : Nat) : FirM StoredElement := fun s =>
  match s.imodel.element? id with
  | some row => (.ok row, s)
  | none => (.error .fatal, s)

/-- Replace an element row (`updateElement`). -/
def updateElementM (id : Nat) (row : StoredElement) : FirM Unit :=
  modifyImodel (fun im => { im with
    elements := im.elements.map (fun p => if p.1 = id then (id, row) else p) })

/-- Insert an aspect row, returning a fresh id (`insertAspect`). -/
def insertAspectM (row : StoredAspect) : FirM Nat := fun s =>
  (.ok s.imodel.nextId,
   { s with imodel := { s.imodel with
       nextId := s.imodel.nextId + 1
       aspects := (s.imodel.nextId, row) :: s.imodel.aspects } })

/-- Replace an aspect row (`updateAspect`). -/
def updateAspectM (id : Nat) (row : StoredAspect) : FirM Unit :=
  modifyImodel (fun im => { im with
    aspects := im.aspects.map (fun p => if p.1 = id then (id, row) else p) })

/-- Delete the aspect rows with the given ids (`deleteAspect`). -/
def deleteAspectsM (ids : List Nat) : FirM Unit :=
  modifyImodel (fun im => { im with
    aspects := im.aspects.filter (fun p => decide (p.1 ∉ ids)) })

/-- Insert a model row.  Following the BIS store, the row is keyed by the id of
its modeled element, which is returned as the model's id (`insertModel`). -/
def insertModelM (modeledId : Nat) (row : StoredModel) : FirM Nat := fun s =>
  (.ok modeledId,
   { s with imodel := { s.imodel with
       models := (modeledId, row) :: s.imodel.models } })

/-- Fetch a model row; throws when absent (`getModelProps`). -/
def getModelM (id : Nat) : FirM StoredModel := fun s =>
  match s.imodel.model? id with
  | some row => (.ok row, s)
  | none => (.error .fatal, s)

/-- Replace a model row (`updateModel`). -/
def updateModelM (id : Nat) (row : StoredModel) : FirM Unit :=
  modifyImodel (fun im => { im with
    models := im.models.map (fun p => if p.1 = id then (id, row) else p) })

/-- Delete a model row (`deleteModel`). -/
def deleteModelM (id : Nat) : FirM Unit :=
  modifyImodel (fun im => { im with
    models := im.models.filter (fun p => p.1 ≠ id) })

/-- Delete an element row.  The store cascades: the element's aspects are
removed with it, and link-table relationship instances referencing the element
are removed (the code counts aspects proactively for this reason and relies on
the automatic link-table cleanup). -/
def deleteElementM (id : Nat) : FirM Unit :=
  modifyImodel (fun im => { im with
    elements := im.elements.filter (fun p => p.1 ≠ id)
    aspects := im.aspects.filter (fun p => p.2.ownerId ≠ id)
    relationships := im.relationships.filter
      (fun p => p.2.sourceId ≠ id && p.2.targetId ≠ id) })

/-- Modelled from the spec: deferred deletion of definition elements
(`deleteDefinitionElements`).  The store may refuse when an element is still
referenced, returning the kept set; this model always deletes and returns an
empty kept set (the refusal path only reduces deletions). -/
def deleteDefinitionElementsM (ids : List Nat) : FirM Nat := fun s =>
  (.ok 0,
   { s with imodel := { s.imodel with
       elements := s.imodel.elements.filter (fun p => decide (p.1 ∉ ids))
       aspects := s.imodel.aspects.filter (fun p => decide (p.2.ownerId ∉ ids))
       relationships := s.imodel.relationships.filter
         (fun p => decide (p.2.sourceId ∉ ids) && decide (p.2.targetId ∉ ids)) } })

/-- Insert a link-table relationship instance (`insertInstance`).  Modelled
from the spec: the store rejects a class denoting parent/child containment with
`InvalidRelationshipClassError` before inserting (spec sections 4.3 and 7; the
repository's test asserts the throw). -/
def insertInstanceM (row : StoredRel) : FirM Nat := fun s =>
  if isContainmentClass row.classFullName then (.error .invalidRelationshipClass, s)
  else
    (.ok s.imodel.nextId,
     { s with imodel := { s.imodel with
         nextId := s.imodel.nextId + 1
         relationships := (s.imodel.nextId, row) :: s.imodel.relationships } })

/-- Delete a link-table relationship instance by id (`deleteInstance`). -/
def deleteInstanceM (id : Nat) : FirM Unit :=
  modifyImodel (fun im => { im with
    relationships := im.relationships.filter (fun p => p.1 ≠ id) })

-- Auxiliary types mirroring src/sync.ts.

/-- The `State` type fed to the mapping functions. -/
inductive MapState where
  | update (id : Nat) : MapState
  | new : MapState
deriving DecidableEq, Repr

/-- The `RelationshipState` type: an update carries the stale triple needed to
delete the stale instance. -/
inductive RelState where
  | update (id : Nat) (fullClass : String) (source : Nat) (target : Nat) : RelState
  | new : RelState
deriving DecidableEq, Repr

/-- Tree-trimming statistics (`Trim`). -/
structure Trim where
  deletedElements : Nat
  deletedModels : Nat
  deletedAspects : Nat
deriving DecidableEq, Repr

instance : Add Trim where
  add a b := ⟨a.deletedElements + b.deletedElements, a.deletedModels + b.deletedModels,
              a.deletedAspects + b.deletedAspects⟩

/-- The `Change` type returned by change detection. -/
inductive Change where
  | changed : Change
  | unchanged : Change
deriving DecidableEq, Repr

/-- The element-or-id union accepted by `cutTag` and `readTag`. -/
inductive ElOrId where
  | el (e : Element) : ElOrId
  | id (n : Nat) : ElOrId

/-- The mapped element props assembled by `toElement`. -/
structure ElementProps where
  classFullName : String
  modelId : Nat
  parentId : Option Nat
  parentRel : Option String
  userJson : Option String
  props : String
deriving DecidableEq, Repr

/-- The mapped model props assembled by `toModel`. -/
structure ModelProps where
  classFullName : String
  parentModelId : Option Nat
  modeledId : Nat
  userJson : Option String
  props : String
deriving DecidableEq, Repr

/-- Attempt to infer the class of the parent relationship from the parent
(src/sync.ts `resolveParentClass`). -/
def resolveParentClass : Element → String
  | .rootSubject => subjectOwnsPartitionElementsClass
  | .node en =>
      if en.classFullName = categoryClass then categoryOwnsSubCategoriesClass
      else elementOwnsChildElementsClass

/-- Merge the user JSON with the existing JSON at namespace granularity
(src/sync.ts `mergeJson` with `Object.assign`): present user keys override,
the `fir` namespace is preserved. -/
def mergeUserJson (user existing : Option String) : Option String :=
  match user with
  | some u => some u
  | none => existing

/-- Set a key in a `fir` tag map, overwriting an existing entry. -/
def setTag (fir : List (String × TagValue)) (key : String) (v : TagValue) :
    List (String × TagValue) :=
  if fir.any (fun p => p.1 = key) then
    fir.map (fun p => if p.1 = key then (key, v) else p)
  else fir ++ [(key, v)]

/-- Remove a list of keys from a `fir` tag map. -/
def cutTags (fir : List (String × TagValue)) (keys : List String) :
    List (String × TagValue) :=
  fir.filter (fun p => decide (p.1 ∉ keys))

/-- The comparison core of change detection (src/sync.ts `changed`, lines
688-703): a version change where both sides define a version, or a checksum
change where both sides define a checksum; either reports `changed`. -/
def changeOf (aspect : StoredAspect) (meta : Meta) : Change :=
  let versionChange :=
    aspect.version.isSome && meta.version.isSome &&
    !(aspect.version == meta.version)
  let checksumChange :=
    aspect.checksum.isSome && meta.checksum.isSome &&
    !(aspect.checksum == meta.checksum)
  if versionChange || checksumChange then .changed else .unchanged

/-- The bookkeeping repository link (`this.store` in the `Sync` constructor):
a repository link element anchored at the root subject. -/
def firStore : Element :=
  .node (.mk "BisCore:RepositoryLink" .repository none
    (.mk .rootSubject none "fir-bookkeeping" "ts" (some "0.0.0-pitch") none)
    none none "fir bookkeeping store")

/-- Modelled from the spec: is the stored element an instance of the backend's
`Category` class (the class hierarchy lives in the external backend)? -/
def isCategoryKind (c : String) : Bool :=
  c = "BisCore:SpatialCategory" || c = "BisCore:DrawingCategory" || c = categoryClass

/-!
The engine (src/sync.ts, class `Sync`).  Every function takes an explicit fuel
parameter, decremented on each nested call; exhausting it models the documented
unbounded-recursion gap.  The structure of each body mirrors the source method
of the same name.
-/

mutual

/-- Method `Sync.put`: dispatch on the runtime-narrowed branch union. -/
def put : Nat → Branch → FirM Nat
  | 0, _ => throwF .outOfFuel
  | _ + 1, .model .repository => pure repositoryModelId
  | _ + 1, .elem .rootSubject => pure rootSubjectId
  | f + 1, .elem e => putElement f e
  | f + 1, .model m => putModel f m
  | f + 1, .rel r => putRelationship f r

/-- Method `Sync.putElement`: find by provenance or insert, then record the id
in the touched set. -/
def putElement : Nat → Element → FirM Nat
  | 0, _ => throwF .outOfFuel
  | _ + 1, .rootSubject => pure rootSubjectId
  | f + 1, e@(.node _) => do
      let found ← meta f e
      let elementId ←
        match found.1 with
        | some id => pure id
        | none => mapElement f e .new
      addTouched elementId
      pure elementId

/-- Method `Sync.putModel`: resolve the modeled element, look the model up via
it, or insert a new model. -/
def putModel : Nat → Model → FirM Nat
  | 0, _ => throwF .outOfFuel
  | _ + 1, .repository => pure repositoryModelId
  | f + 1, m@(.node mn) => do
      let modeledId ← putElement f mn.modeledElement
      let s ← getS
      match modelOf s.imodel modeledId with
      | some modelId => pure modelId
      | none => mapModel f m .new

/-- Method `Sync.putRelationship`: read the anchor's bookkeeping tag, resolve
the endpoints, then insert, return the cached id, or move the relationship.
The unchanged-comparison mirrors src/sync.ts line 429 verbatim, including its
comparison of the incoming target id against the recorded source id. -/
def putRelationship : Nat → Rel → FirM Nat
  | 0, _ => throwF .outOfFuel
  | f + 1, r => do
      let read ← readTag f (.el firStore) r.anchor
      let found : Option (Nat × String × Nat × Nat) :=
        match read with
        | none => none
        | some .presence => none
        | some (.relMeta i c s t) => some (i, c, s, t)
      let fullClass := r.classFullName
      let sourceId ← put f (.elem r.source)
      let targetId ← put f (.elem r.target)
      match found with
      | none => do
          let id ← mapRelationship f r .new
          tag f r.source r.anchor .presence
          tag f r.target r.anchor .presence
          tag f firStore r.anchor (.relMeta id fullClass sourceId targetId)
          pure id
      | some (fid, fclass, fsource, ftarget) =>
          if fullClass = fclass ∧ sourceId = fsource ∧ targetId = fsource then
            pure fid
          else do
            (if sourceId ≠ fsource then do
                cutTag f (.id fsource) [r.anchor]
                tag f r.source r.anchor .presence
             else pure ())
            (if targetId ≠ ftarget then do
                cutTag f (.id ftarget) [r.anchor]
                tag f r.target r.anchor .presence
             else pure ())
            let id ← mapRelationship f r (.update fid fclass fsource ftarget)
            tag f firStore r.anchor (.relMeta id fullClass sourceId targetId)
            pure id

/-- Method `Sync.mapElement`: map the node to props (inserting dependencies),
insert or update the element, its external source aspect, and its declared
aspects (delete and reinsert the latter). -/
def mapElement : Nat → Element → MapState → FirM Nat
  | 0, _, _ => throwF .outOfFuel
  | _ + 1, .rootSubject, _ => pure rootSubjectId
  | f + 1, e@(.node en), st => do
      let props ← toElement f e
      let elementId ←
        match st with
        | .update id => do
            let found ← getElementM id
            let merged := mergeUserJson props.userJson found.userJson
            updateElementM id
              { classFullName := props.classFullName, modelId := props.modelId
                parentId := props.parentId, parentRel := props.parentRel
                firTags := found.firTags, userJson := merged, props := props.props }
            pure id
        | .new =>
            insertElementM
              { classFullName := props.classFullName, modelId := props.modelId
                parentId := props.parentId, parentRel := props.parentRel
                firTags := none, userJson := props.userJson, props := props.props }
      let externalAspectProps ← toExternalAspect f elementId en.meta
      (match st with
       | .update _ => do
          let found2 ← meta f e
          match found2.2 with
          | some aspectId => updateAspectM aspectId externalAspectProps
          | none => throwF .fatal
       | .new => do
          let _ ← insertAspectM externalAspectProps
          pure ())
      (match en.aspects with
       | some _ => do
          let s ← getS
          let stale := (aspectsOf s.imodel elementId).filter
            (fun p => p.2.classFullName ≠ externalSourceAspectClass)
          deleteAspectsM (stale.map (·.1))
       | none => pure ())
      (en.aspects.getD []).forM (fun a => do
        let _ ← insertAspectM
          { ownerId := elementId, classFullName := a.classFullName
            scopeId := 0, sourceId := none, kind := "", anchor := ""
            version := none, checksum := none, props := a.props }
        pure ())
      pure elementId

/-- Method `Sync.mapModel`: map the node to props, then insert or update the
model, merging JSON properties on update. -/
def mapModel : Nat → Model → MapState → FirM Nat
  | 0, _, _ => throwF .outOfFuel
  | _ + 1, .repository, _ => pure repositoryModelId
  | f + 1, m@(.node _), st => do
      let props ← toModel f m
      match st with
      | .update id => do
          let found ← getModelM id
          let merged := mergeUserJson props.userJson found.jsonProps
          updateModelM id
            { classFullName := props.classFullName
              parentModelId := props.parentModelId
              jsonProps := merged, props := props.props }
          pure id
      | .new =>
          insertModelM props.modeledId
            { classFullName := props.classFullName
              parentModelId := props.parentModelId
              jsonProps := props.userJson, props := props.props }

/-- Method `Sync.mapRelationship`: on update, delete the stale instance
identified by the recorded triple; then insert the new instance. -/
def mapRelationship : Nat → Rel → RelState → FirM Nat
  | 0, _, _ => throwF .outOfFuel
  | f + 1, r, st => do
      let props ← toRelationship f r
      (match st with
       | .update id _ _ _ => deleteInstanceM id
       | .new => pure ())
      insertInstanceM props

/-- Function `toElement` (src/sync.ts): resolve the containing model and the
parent reference, assembling element props. -/
def toElement : Nat → Element → FirM ElementProps
  | 0, _ => throwF .outOfFuel
  | _ + 1, .rootSubject => throwF .fatal
  | f + 1, .node en => do
      let modelId ← put f (.model en.model)
      let pr ←
        match en.parent with
        | none => pure ((none : Option Nat), (none : Option String))
        | some (.plain .rootSubject) =>
            pure (some rootSubjectId, some subjectOwnsPartitionElementsClass)
        | some p => do
            let pe :=
              match p with
              | .plain q => (q, (none : Option String))
              | .withRel q rc => (q, some rc)
            let pid ← put f (.elem pe.1)
            pure (some pid, some (pe.2.getD (resolveParentClass pe.1)))
      pure { classFullName := en.classFullName, modelId := modelId
             parentId := pr.1, parentRel := pr.2
             userJson := en.jsonProps, props := en.props }

/-- Function `toModel` (src/sync.ts): resolve the modeled element and the
parent model, assembling model props. -/
def toModel : Nat → Model → FirM ModelProps
  | 0, _ => throwF .outOfFuel
  | _ + 1, .repository => throwF .fatal
  | f + 1, .node mn => do
      let modeledId ← put f (.elem mn.modeledElement)
      let parentModelId ←
        match mn.parentModel with
        | none => pure (none : Option Nat)
        | some pm => do
            let x ← put f (.model pm)
            pure (some x)
      pure { classFullName := mn.classFullName, parentModelId := parentModelId
             modeledId := modeledId, userJson := mn.jsonProps, props := mn.props }

/-- Function `toRelationship` (src/sync.ts): resolve both endpoints. -/
def toRelationship : Nat → Rel → FirM StoredRel
  | 0, _ => throwF .outOfFuel
  | f + 1, r => do
      let sourceId ← put f (.elem r.source)
      let targetId ← put f (.elem r.target)
      pure { classFullName := r.classFullName, sourceId := sourceId, targetId := targetId }

/-- Method `Sync.toExternalAspect`: resolve the scope and optional source of
the provenance record, assembling external source aspect props. -/
def toExternalAspect : Nat → Nat → Meta → FirM StoredAspect
  | 0, _, _ => throwF .outOfFuel
  | f + 1, elementId, mta => do
      let scopeId ← put f (.elem mta.scope)
      let sourceId ←
        match mta.source with
        | none => pure (none : Option Nat)
        | some src => do
            let x ← put f (.elem src)
            pure (some x)
      pure { ownerId := elementId, classFullName := externalSourceAspectClass
             scopeId := scopeId, sourceId := sourceId
             kind := mta.kind, anchor := mta.anchor
             version := mta.version, checksum := mta.checksum, props := "" }

/-- Method `Sync.meta`: resolve the scope and find the element's external
source aspect by (scope, kind, anchor). -/
def meta : Nat → Element → FirM (Option Nat × Option Nat)
  | 0, _ => throwF .outOfFuel
  | _ + 1, .rootSubject => throwF .fatal
  | f + 1, .node en => do
      let scope ← put f (.elem en.meta.scope)
      let s ← getS
      pure (findBySource s.imodel scope en.meta.kind en.meta.anchor)

/-- Method `Sync.changed`: put the element, then compare its stored external
source aspect against the incoming provenance via `changeOf`. -/
def changed : Nat → Element → FirM Change
  | 0, _ => throwF .outOfFuel
  | _ + 1, .rootSubject => pure .unchanged
  | f + 1, e@(.node en) => do
      let _ ← put f (.elem e)
      let found ← meta f e
      match found.1, found.2 with
      | some _, some aspectId => do
          let s ← getS
          match s.imodel.aspect? aspectId with
          | none => throwF .fatal
          | some aspect => pure (changeOf aspect en.meta)
      | _, _ => throwF .fatal

/-- Method `Sync.sync`: dispatch to `syncElement` or `syncModel`. -/
def sync : Nat → Branch → FirM Unit
  | 0, _ => throwF .outOfFuel
  | _ + 1, .model .repository => pure ()
  | _ + 1, .elem .rootSubject => pure ()
  | f + 1, .elem e => syncElement f e
  | f + 1, .model m => syncModel f m
  | _ + 1, .rel _ => throwF .fatal

/-- Method `Sync.syncElement`: put, then update when changed. -/
def syncElement : Nat → Element → FirM Unit
  | 0, _ => throwF .outOfFuel
  | _ + 1, .rootSubject => pure ()
  | f + 1, e@(.node _) => do
      let elementId ← put f (.elem e)
      let c ← changed f e
      if c = .changed then do
        let _ ← mapElement f e (.update elementId)
        pure ()
      else pure ()

/-- Method `Sync.syncModel`: put the model, then update it when its modeled
element changed (a model has no provenance of its own). -/
def syncModel : Nat → Model → FirM Unit
  | 0, _ => throwF .outOfFuel
  | _ + 1, .repository => pure ()
  | f + 1, m@(.node mn) => do
      let modelId ← putModel f m
      let c ← changed f mn.modeledElement
      if c = .changed then do
        let _ ← mapModel f m (.update modelId)
        pure ()
      else pure ()

/-- Method `Sync.trim`: resolve the branch via `put`, then trim its subtree. -/
def trim : Nat → Branch → FirM Trim
  | 0, _ => throwF .outOfFuel
  | f + 1, b => do
      let branchId ← put f b
      trimTree f branchId

/-- Method `Sync.trimTree`: post-order walk; recurse into children, then
delete the branch when it is managed, untouched, and childless (with the
default-subcategory exemption), cleaning up relationship provenance first. -/
def trimTree : Nat → Nat → FirM Trim
  | 0, _ => throwF .outOfFuel
  | f + 1, branch => do
      let s0 ← getS
      let subModel := tryGetSubModel s0.imodel branch
      let isElement := subModel.isNone
      let children :=
        if isElement then childrenOfElement s0.imodel branch
        else childrenOfModel s0.imodel (subModel.getD 0)
      let acc ← trimChildren f children
      let element ← getElementM branch
      let s2 ← getS
      let remainingChildren :=
        if isElement then childrenOfElement s2.imodel branch
        else childrenOfModel s2.imodel (subModel.getD 0)
      let managed := isManaged s2.imodel branch
      let seen := branch ∈ s2.touched
      let subcategoryWithDefault :=
        isCategoryKind element.classFullName ∧ remainingChildren.length = 1
      let noChildren := remainingChildren.isEmpty ∨ subcategoryWithDefault
      if managed ∧ ¬seen ∧ noChildren then
        if isElement then do
          trimRelationship f branch
          if isDefinitionClass element.classFullName then do
            let s3 ← getS
            let aspectCount := (aspectsOf s3.imodel branch).length
            let inUse ← deleteDefinitionElementsM [branch]
            if inUse = 0 then
              pure (acc + ⟨(if isCategoryKind element.classFullName then 2 else 1), 0, aspectCount⟩)
            else pure acc
          else do
            let s3 ← getS
            let aspectCount := (aspectsOf s3.imodel branch).length
            deleteElementM branch
            pure (acc + ⟨1, 0, aspectCount⟩)
        else do
          let s3 ← getS
          let aspectCount := (aspectsOf s3.imodel branch).length
          deleteModelM (subModel.getD 0)
          deleteElementM branch
          pure (acc + ⟨1, 1, aspectCount⟩)
      else pure acc

/-- The `children.forEach` recursion of `trimTree`, accumulating counts. -/
def trimChildren : Nat → List Nat → FirM Trim
  | 0, _ => throwF .outOfFuel
  | _ + 1, [] => pure ⟨0, 0, 0⟩
  | f + 1, c :: cs => do
      let d ← trimTree f c
      let rest ← trimChildren f cs
      pure (d + rest)

/-- Method `Sync.trimRelationship`: for every relationship anchor tagged on
the element, remove the element's tags, then for each anchor remove the
bookkeeping tag and the tag on the recorded target endpoint. -/
def trimRelationship : Nat → Nat → FirM Unit
  | 0, _ => throwF .outOfFuel
  | f + 1, element => do
      let readSource ← readTagAll f (.id element)
      match readSource with
      | none => pure ()
      | some fir => do
          let anchors := fir.map (·.1)
          if anchors = [] then pure ()
          else do
            cutTag f (.id element) anchors
            trimAnchors f element anchors

/-- The per-anchor cleanup loop of `trimRelationship`:  the recorded related
endpoint is always the tag's `target` field, as in the source. -/
def trimAnchors : Nat → Nat → List String → FirM Unit
  | 0, _, _ => throwF .outOfFuel
  | _ + 1, _, [] => pure ()
  | f + 1, element, anchor :: rest => do
      let readRelationship ← readTag f (.el firStore) anchor
      (match readRelationship with
       | none => throwF .fatal
       | some .presence => do
          cutTag f (.el firStore) [anchor]
          throwF .fatal
       | some (.relMeta _ _ _ t) => do
          cutTag f (.el firStore) [anchor]
          cutTag f (.id t) [anchor])
      trimAnchors f element rest

/-- Method `Sync.tag`: write a key-value pair into the element's `fir` JSON
namespace via a read-modify-write update. -/
def tag : Nat → Element → String → TagValue → FirM Unit
  | 0, _, _, _ => throwF .outOfFuel
  | _ + 1, .rootSubject, _, _ => throwF .fatal
  | f + 1, e@(.node en), key, v => do
      let id0 ← put f (.elem e)
      let found ← getElementM id0
      let fir := found.firTags.getD []
      let fir2 := setTag fir key v
      let id1 ← put f (.elem e)
      let mid ← put f (.model en.model)
      let found1 ← getElementM id1
      updateElementM id1
        { found1 with firTags := some fir2, userJson := found.userJson
                      modelId := mid, classFullName := en.classFullName }

/-- Method `Sync.cutTag`: remove keys from the element's `fir` JSON namespace;
a missing namespace is a nop. -/
def cutTag : Nat → ElOrId → List String → FirM Unit
  | 0, _, _ => throwF .outOfFuel
  | _ + 1, .el .rootSubject, _ => throwF .fatal
  | f + 1, el, keys => do
      let id ←
        match el with
        | .id n => pure n
        | .el e => put f (.elem e)
      let found ← getElementM id
      match found.firTags with
      | none => pure ()
      | some fir => updateElementM id { found with firTags := some (cutTags fir keys) }

/-- Method `Sync.readTag` with a key: retrieve one tag from the `fir`
namespace; `none` is the read failure (no namespace or no such key). -/
def readTag : Nat → ElOrId → String → FirM (Option TagValue)
  | 0, _, _ => throwF .outOfFuel
  | _ + 1, .el .rootSubject, _ => throwF .fatal
  | f + 1, el, key => do
      let id ←
        match el with
        | .id n => pure n
        | .el e => put f (.elem e)
      let found ← getElementM id
      match found.firTags with
      | none => pure none
      | some fir => pure (fir.lookup key)

/-- Method `Sync.readTag` without a key: retrieve the whole `fir` namespace. -/
def readTagAll : Nat → ElOrId → FirM (Option (List (String × TagValue)))
  | 0, _ => throwF .outOfFuel
  | _ + 1, .el .rootSubject => throwF .fatal
  | f + 1, el => do
      let id ←
        match el with
        | .id n => pure n
        | .el e => put f (.elem e)
      let found ← getElementM id
      match found.firTags with
      | none => pure none
      | some fir => pure (some fir)

end

/-- The `Sync` constructor: starting from a store, sync the bookkeeping
repository link (`this.sync(this.store)`). -/
def mkSync (fuel : Nat) : FirM Unit :=
  sync fuel (.elem firStore)

/-- The initial session state over a fresh store. -/
def initState : SyncState :=
  { imodel := initIModel, touched := [] }

/-!
The pure provenance-chain lookup: the (scope, kind, anchor) lookup of an
element whose scope chain is present in the store, mirroring the recursion
`meta` performs through `put` but without any store effect.  It is used to
state when an element is found (rather than inserted) by `putElement`.
-/

mutual

/-- Resolve an element through the store by provenance alone: the root subject
has its fixed id; a node is found by resolving its scope and then looking up
(scope, kind, anchor) in the external source aspect index. -/
def resolveChain : Element → IModel → Option Nat
  | .rootSubject, _ => some rootSubjectId
  | .node en, im => resolveChainNode en im

/-- Unfold the node to its provenance record. -/
def resolveChainNode : ElementNode → IModel → Option Nat
  | .mk _ _ _ mta _ _ _, im => resolveChainMeta mta im

/-- Resolve the scope, then consult the provenance index. -/
def resolveChainMeta : Meta → IModel → Option Nat
  | .mk scope _ anchor kind _ _, im =>
      match resolveChain scope im with
      | none => none
      | some sid => (findBySource im sid kind anchor).1

end

/-!
Concrete scenario descriptions and the store states their runs produce.
Each state below is a literal; the theorems tie them together one engine
call at a time.
-/

def elAN : ElementNode :=
  .mk "BisCore:UrlLink" .repository (some (.plain .rootSubject))
    (.mk .rootSubject none "a" "json" (some "1.0.0") none) none none "A"

def elBN : ElementNode :=
  .mk "BisCore:UrlLink" .repository (some (.plain .rootSubject))
    (.mk .rootSubject none "b" "json" (some "1.0.0") none) none none "B"

def elCN : ElementNode :=
  .mk "BisCore:UrlLink" .repository (some (.plain .rootSubject))
    (.mk .rootSubject none "c" "json" (some "1.0.0") none) none none "C"

def relClass : String := "TestSchema:ARefersToB"

/-- A link relationship anchored `r1` from A to B. -/
def relAB : Rel := ⟨relClass, "r1", .node elAN, .node elBN⟩

/-- The same anchor `r1`, re-pointed from A to C. -/
def relAC : Rel := ⟨relClass, "r1", .node elAN, .node elCN⟩

def partAN : ElementNode :=
  .mk "BisCore:LinkPartition" .repository (some (.plain .rootSubject))
    (.mk .rootSubject none "partition" "json" (some "1.0.0") none) none none "models my links"

def modelAN : ModelNode :=
  .mk "BisCore:LinkModel" (some .repository) (.node partAN) (some "A") "M"

/-- The partition after its source description changed: new version, new
description. -/
def partBN : ElementNode :=
  .mk "BisCore:LinkPartition" .repository (some (.plain .rootSubject))
    (.mk .rootSubject none "partition" "json" (some "1.0.1") none) none none "still models my links"

/-- The model after its source description changed: new JSON properties,
modeling the changed partition. -/
def modelBN : ModelNode :=
  .mk "BisCore:LinkModel" (some .repository) (.node partBN) (some "B") "M"

def partPN : ElementNode :=
  .mk "BisCore:LinkPartition" .repository (some (.plain .rootSubject))
    (.mk .rootSubject none "p" "json" (some "1") none) none none "P"

def elSN : ElementNode :=
  .mk "BisCore:UrlLink" .repository (some (.plain (.node partPN)))
    (.mk .rootSubject none "s" "json" (some "1") none) none none "S"

def elTN : ElementNode :=
  .mk "BisCore:UrlLink" .repository (some (.plain (.node partPN)))
    (.mk .rootSubject none "t" "json" (some "1") none) none none "T"

/-- A link relationship anchored `r` from S to T. -/
def relST : Rel := ⟨"TestSchema:Refers", "r", .node elSN, .node elTN⟩

/-- A containment class misused as a link relationship between the partition P
and its actual child S. -/
def relPS : Rel := ⟨elementOwnsChildElementsClass, "po", .node partPN, .node elSN⟩

-- Literal store rows.

def rootRow : StoredElement := ⟨"BisCore:Subject", 1, none, none, none, none, "root"⟩

def repoModelRow : StoredModel := ⟨"BisCore:RepositoryModel", none, none, "repository"⟩

def storeRow (tags : Option (List (String × TagValue))) : StoredElement :=
  ⟨"BisCore:RepositoryLink", 1, none, none, tags, none, "fir bookkeeping store"⟩

def bkAspect : StoredAspect :=
  ⟨2, externalSourceAspectClass, 1, none, "ts", "fir-bookkeeping", some "0.0.0-pitch", none, ""⟩

def aAspect (owner : Nat) (kind anchor : String) (version : Option String) : StoredAspect :=
  ⟨owner, externalSourceAspectClass, 1, none, kind, anchor, version, none, ""⟩

def urlRow (tags : Option (List (String × TagValue))) (props : String) : StoredElement :=
  ⟨"BisCore:UrlLink", 1, some 1, some subjectOwnsPartitionElementsClass, tags, none, props⟩

/-- The session state right after the `Sync` constructor on a fresh store. -/
def state0L : SyncState :=
  ⟨⟨4, [(2, storeRow none), (1, rootRow)], [(1, repoModelRow)], [(3, bkAspect)], []⟩, [2]⟩

/-- The state after `put relAB` from `state0L`: endpoints 4 and 6 inserted,
instance 8 persisted, bookkeeping tag and endpoint presence tags written. -/
def stateAB : SyncState :=
  ⟨⟨9, [(6, urlRow (some [("r1", .presence)]) "B"),
        (4, urlRow (some [("r1", .presence)]) "A"),
        (2, storeRow (some [("r1", .relMeta 8 relClass 4 6)])),
        (1, rootRow)],
    [(1, repoModelRow)],
    [(7, aAspect 6 "json" "b" (some "1.0.0")), (5, aAspect 4 "json" "a" (some "1.0.0")),
     (3, bkAspect)],
    [(8, ⟨relClass, 4, 6⟩)]⟩, [6, 4, 2]⟩

/-- Intermediate state of the `relAB` creation: endpoint A inserted. -/
def sAB2 : SyncState :=
  ⟨⟨6, [(4, urlRow none "A"), (2, storeRow none), (1, rootRow)], [(1, repoModelRow)],
    [(5, aAspect 4 "json" "a" (some "1.0.0")), (3, bkAspect)], []⟩, [4, 2]⟩

/-- Intermediate state of the `relAB` creation: endpoint B inserted. -/
def sAB3 : SyncState :=
  ⟨⟨8, [(6, urlRow none "B"), (4, urlRow none "A"), (2, storeRow none), (1, rootRow)],
    [(1, repoModelRow)],
    [(7, aAspect 6 "json" "b" (some "1.0.0")), (5, aAspect 4 "json" "a" (some "1.0.0")),
     (3, bkAspect)], []⟩, [6, 4, 2]⟩

/-- Intermediate state of the `relAB` creation: instance 8 inserted. -/
def sAB4 : SyncState :=
  ⟨⟨9, [(6, urlRow none "B"), (4, urlRow none "A"), (2, storeRow none), (1, rootRow)],
    [(1, repoModelRow)],
    [(7, aAspect 6 "json" "b" (some "1.0.0")), (5, aAspect 4 "json" "a" (some "1.0.0")),
     (3, bkAspect)], [(8, ⟨relClass, 4, 6⟩)]⟩, [6, 4, 2]⟩

/-- Intermediate state of the `relAB` creation: presence tag on A. -/
def sAB5 : SyncState :=
  ⟨⟨9, [(6, urlRow none "B"), (4, urlRow (some [("r1", .presence)]) "A"),
        (2, storeRow none), (1, rootRow)],
    [(1, repoModelRow)],
    [(7, aAspect 6 "json" "b" (some "1.0.0")), (5, aAspect 4 "json" "a" (some "1.0.0")),
     (3, bkAspect)], [(8, ⟨relClass, 4, 6⟩)]⟩, [6, 4, 2]⟩

/-- Intermediate state of the `relAB` creation: presence tag on B. -/
def sAB6 : SyncState :=
  ⟨⟨9, [(6, urlRow (some [("r1", .presence)]) "B"), (4, urlRow (some [("r1", .presence)]) "A"),
        (2, storeRow none), (1, rootRow)],
    [(1, repoModelRow)],
    [(7, aAspect 6 "json" "b" (some "1.0.0")), (5, aAspect 4 "json" "a" (some "1.0.0")),
     (3, bkAspect)], [(8, ⟨relClass, 4, 6⟩)]⟩, [6, 4, 2]⟩

/-- The state after a second, identical `put relAB` from `stateAB`: instance 8
has been deleted and reinserted as instance 9, and the bookkeeping tag
rewritten, although nothing changed. -/
def stateAB2 : SyncState :=
  ⟨⟨10, [(6, urlRow (some [("r1", .presence)]) "B"),
         (4, urlRow (some [("r1", .presence)]) "A"),
         (2, storeRow (some [("r1", .relMeta 9 relClass 4 6)])),
         (1, rootRow)],
    [(1, repoModelRow)],
    [(7, aAspect 6 "json" "b" (some "1.0.0")), (5, aAspect 4 "json" "a" (some "1.0.0")),
     (3, bkAspect)],
    [(9, ⟨relClass, 4, 6⟩)]⟩, [6, 4, 2]⟩

/-- The state after re-putting the anchor from A to C from `stateAB`: C is
element 9, the stale instance 8 is gone, instance 11 persists with target 9,
the presence tag moved from B to C, and the bookkeeping tag was rewritten. -/
def stateAC : SyncState :=
  ⟨⟨12, [(9, urlRow (some [("r1", .presence)]) "C"),
         (6, urlRow (some []) "B"),
         (4, urlRow (some [("r1", .presence)]) "A"),
         (2, storeRow (some [("r1", .relMeta 11 relClass 4 9)])),
         (1, rootRow)],
    [(1, repoModelRow)],
    [(10, aAspect 9 "json" "c" (some "1.0.0")),
     (7, aAspect 6 "json" "b" (some "1.0.0")), (5, aAspect 4 "json" "a" (some "1.0.0")),
     (3, bkAspect)],
    [(11, ⟨relClass, 4, 9⟩)]⟩, [9, 6, 4, 2]⟩

def partARow : StoredElement :=
  ⟨"BisCore:LinkPartition", 1, some 1, some subjectOwnsPartitionElementsClass, none, none,
   "models my links"⟩

def partBRow : StoredElement :=
  ⟨"BisCore:LinkPartition", 1, some 1, some subjectOwnsPartitionElementsClass, none, none,
   "still models my links"⟩

def linkModelRow (j : Option String) : StoredModel := ⟨"BisCore:LinkModel", some 1, j, "M"⟩

/-- The state after putting the partition from `state0L`. -/
def c3a : SyncState :=
  ⟨⟨6, [(4, partARow), (2, storeRow none), (1, rootRow)], [(1, repoModelRow)],
    [(5, aAspect 4 "json" "partition" (some "1.0.0")), (3, bkAspect)], []⟩, [4, 2]⟩

/-- The state after also putting the model: the last-run baseline for the
sync-ordering scenario. -/
def c3mid : SyncState :=
  ⟨⟨6, [(4, partARow), (2, storeRow none), (1, rootRow)],
    [(4, linkModelRow (some "A")), (1, repoModelRow)],
    [(5, aAspect 4 "json" "partition" (some "1.0.0")), (3, bkAspect)], []⟩, [4, 2]⟩

/-- The state after syncing the changed partition first: its props and stored
provenance version are updated, the model is not. -/
def c3afterE : SyncState :=
  ⟨⟨6, [(4, partBRow), (2, storeRow none), (1, rootRow)],
    [(4, linkModelRow (some "A")), (1, repoModelRow)],
    [(5, aAspect 4 "json" "partition" (some "1.0.1")), (3, bkAspect)], []⟩, [4, 2]⟩

/-- The state after syncing the changed model first: the model's JSON is
updated while the partition still carries the old provenance. -/
def c3afterM : SyncState :=
  ⟨⟨6, [(4, partARow), (2, storeRow none), (1, rootRow)],
    [(4, linkModelRow (some "B")), (1, repoModelRow)],
    [(5, aAspect 4 "json" "partition" (some "1.0.0")), (3, bkAspect)], []⟩, [4, 2]⟩

/-- The state after the model-first pass completes with the partition sync:
both the model and the partition are updated. -/
def c3afterME : SyncState :=
  ⟨⟨6, [(4, partBRow), (2, storeRow none), (1, rootRow)],
    [(4, linkModelRow (some "B")), (1, repoModelRow)],
    [(5, aAspect 4 "json" "partition" (some "1.0.1")), (3, bkAspect)], []⟩, [4, 2]⟩

def partRow : StoredElement :=
  ⟨"BisCore:LinkPartition", 1, some 1, some subjectOwnsPartitionElementsClass, none, none, "P"⟩

def childRow (tags : Option (List (String × TagValue))) (props : String) : StoredElement :=
  ⟨"BisCore:UrlLink", 1, some 4, some elementOwnsChildElementsClass, tags, none, props⟩

/-- A second-session state over a store holding partition P (4) with children
S (6) and T (8) and a tracked relationship `r` from S to T (instance 10);
the session has resolved S (and the bookkeeping link) but not T or P. -/
def c4state : SyncState :=
  ⟨⟨11, [(8, childRow (some [("r", .presence)]) "T"),
         (6, childRow (some [("r", .presence)]) "S"),
         (4, partRow),
         (2, storeRow (some [("r", .relMeta 10 "TestSchema:Refers" 6 8)])),
         (1, rootRow)],
    [(1, repoModelRow)],
    [(9, aAspect 8 "json" "t" (some "1")), (7, aAspect 6 "json" "s" (some "1")),
     (5, aAspect 4 "json" "p" (some "1")), (3, bkAspect)],
    [(10, ⟨"TestSchema:Refers", 6, 8⟩)]⟩, [6, 2]⟩

/-- The state after trimming P in `c4state`: T and its aspect are deleted, the
relationship instance and the bookkeeping tag are gone, but the source S keeps
the `r` presence tag. -/
def c4done : SyncState :=
  ⟨⟨11, [(6, childRow (some [("r", .presence)]) "S"),
         (4, partRow),
         (2, storeRow (some [])),
         (1, rootRow)],
    [(1, repoModelRow)],
    [(7, aAspect 6 "json" "s" (some "1")), (5, aAspect 4 "json" "p" (some "1")),
     (3, bkAspect)],
    []⟩, [4, 6, 2]⟩

/-- The state `c4state` with P also resolved: the two endpoint resolutions of
`relPS` add only the already-present ids plus P. -/
def c7mid : SyncState := ⟨c4state.imodel, [4, 6, 2]⟩

/-!
Frame predicates used by the general theorems: `Gr` is growth (the touched set
and both entity tables only gain members), `FrF` adds that the link table is
untouched, and `TPres` is the conservation property of the trimmer (touched
entities survive).
-/

/-- An element row with the given id is present. -/
def elemAt (s : SyncState) (id : Nat) : Prop := (s.imodel.element? id).isSome = true

/-- A model row with the given id is present. -/
def modelAt (s : SyncState) (id : Nat) : Prop := (s.imodel.model? id).isSome = true

/-- Growth: the touched set only gains ids, and element and model rows are
never removed. -/
def Gr (s s1 : SyncState) : Prop :=
  (∀ id, id ∈ s.touched → id ∈ s1.touched) ∧
  (∀ id, elemAt s id → elemAt s1 id) ∧
  (∀ id, modelAt s id → modelAt s1 id)

/-- A computation all of whose runs grow the state. -/
def GrF {α : Type} (m : FirM α) : Prop :=
  ∀ s r s1, m s = (r, s1) → Gr s s1

/-- A computation all of whose runs grow the state and leave the link table
unchanged. -/
def FrF {α : Type} (m : FirM α) : Prop :=
  ∀ s r s1, m s = (r, s1) → Gr s s1 ∧ s1.imodel.relationships = s.imodel.relationships

/-- Trim conservation: the touched set grows, and every element or model that
is present and touched at entry is still present at exit. -/
def TPres (s s1 : SyncState) : Prop :=
  (∀ id, id ∈ s.touched → id ∈ s1.touched) ∧
  (∀ id, id ∈ s.touched → elemAt s id → elemAt s1 id) ∧
  (∀ id, id ∈ s.touched → modelAt s id → modelAt s1 id)

/-- A computation all of whose runs conserve touched entities. -/
def TrF {α : Type} (m : FirM α) : Prop :=
  ∀ s r s1, m s = (r, s1) → TPres s s1

/-!
Theorems settling the claims.  Closed theorems run one engine call per
conjunct, from the literal states above.
-/

set_option maxRecDepth 400000

set_option maxHeartbeats 4000000

/-- Evaluation rule of the engine monad's bind. -/
theorem FirM.bind_apply {α β : Type} (m : FirM α) (k : α → FirM β) (s : SyncState) :
    (m >>= k) s = match m s with
      | (.ok a, s1) => k a s1
      | (.error e, s1) => (.error e, s1) := rfl

/-- Evaluation rule of the engine monad's pure. -/
theorem FirM.pure_apply {α : Type} (a : α) (s : SyncState) :
    (pure a : FirM α) s = (.ok a, s) := rfl

/-- Composition of the absent-tag branch of `putRelationship`: reading no
bookkeeping tag, resolving the endpoints, inserting the instance and writing
the three tags yields the final state of the last tag write. -/
theorem putRelationship_absent (f : Nat) (r : Rel)
    (s s1 s2 s3 s4 s5 s6 s7 : SyncState) (i srcId tgtId : Nat)
    (h1 : readTag f (.el firStore) r.anchor s = (.ok none, s1))
    (h2 : put f (.elem r.source) s1 = (.ok srcId, s2))
    (h3 : put f (.elem r.target) s2 = (.ok tgtId, s3))
    (h4 : mapRelationship f r .new s3 = (.ok i, s4))
    (h5 : tag f r.source r.anchor .presence s4 = (.ok (), s5))
    (h6 : tag f r.target r.anchor .presence s5 = (.ok (), s6))
    (h7 : tag f firStore r.anchor (.relMeta i r.classFullName srcId tgtId) s6 = (.ok (), s7)) :
    putRelationship (f + 1) r s = (.ok i, s7) := by
  simp only [putRelationship, FirM.bind_apply, FirM.pure_apply, h1, h2, h3, h4, h5, h6, h7]

/-- Step lemma: the constructor run on a fresh store produces `state0L`. -/
theorem step_mkSync : mkSync 20 initState = (.ok (), state0L) := rfl

/-- Step lemma: putting `relAB` from `state0L` persists instance 8 and writes
the bookkeeping tag `{8, relClass, 4, 6}`, producing `stateAB`. -/
theorem step_putAB : put 20 (.rel relAB) state0L = (.ok 8, stateAB) := by
  show put (19 + 1) (.rel relAB) state0L = _
  have hd : put (19 + 1) (.rel relAB) = putRelationship 19 relAB := rfl
  rw [hd]
  exact putRelationship_absent 18 relAB state0L state0L sAB2 sAB3 sAB4 sAB5 sAB6 stateAB
    8 4 6 rfl rfl rfl rfl rfl rfl rfl

/-- Step lemma: the second, identical put of `relAB` deletes instance 8,
inserts instance 9 and rewrites the tag, returning 9. -/
theorem step_putAB2 : put 20 (.rel relAB) stateAB = (.ok 9, stateAB2) := rfl

/-- Step lemma: re-putting the anchor from A to C moves the relationship. -/
theorem step_putAC : put 20 (.rel relAC) stateAB = (.ok 11, stateAC) := rfl

/-- Step lemma: putting the partition from `state0L` inserts it as element 4
with aspect 5. -/
theorem step_putPartA : put 20 (.elem (.node partAN)) state0L = (.ok 4, c3a) := rfl

/-- Step lemma: putting the model over `c3a` inserts it keyed by the modeled
partition's id 4 and returns that id without touching anything new. -/
theorem step_putModelA : put 20 (.model (.node modelAN)) c3a = (.ok 4, c3mid) := rfl

/-- Step lemma: syncing the changed partition first updates its props and its
stored provenance version. -/
theorem step_syncE_first : sync 20 (.elem (.node partBN)) c3mid = (.ok (), c3afterE) := rfl

/-- Step lemma: syncing the changed model after the partition was synced is a
complete no-op — the state is unchanged and the model keeps its stale JSON. -/
theorem step_syncM_second : sync 20 (.model (.node modelBN)) c3afterE = (.ok (), c3afterE) := rfl

/-- Step lemma: syncing the changed model first updates the model's JSON. -/
theorem step_syncM_first : sync 20 (.model (.node modelBN)) c3mid = (.ok (), c3afterM) := rfl

/-- Step lemma: syncing the changed partition after the model keeps the
model's update and updates the partition. -/
theorem step_syncE_second : sync 20 (.elem (.node partBN)) c3afterM = (.ok (), c3afterME) := rfl

/-- Step lemma: trimming P over `c4state` deletes the untouched target T with
its aspect, leaving S, P and the sentinels. -/
theorem step_trimP : trim 20 (.elem (.node partPN)) c4state = (.ok ⟨1, 0, 1⟩, c4done) := rfl

/-- C1: the claim says that re-putting a relationship whose bookkeeping tag
records the identical class and endpoints returns the cached id with no store
mutation.  The code compares the incoming target id against the recorded
SOURCE id (src/sync.ts line 429), so for the identical relationship (source 4,
target 6, cached id 8) it takes the changed path: it deletes instance 8,
inserts a fresh instance 9, rewrites the bookkeeping tag, and returns 9 — a
store mutation and a different id. -/
theorem claimC1_unchanged_put_mutates :
    (stateAB.imodel.element? 2).map (·.firTags)
      = some (some [("r1", .relMeta 8 relClass 4 6)]) ∧
    stateAB.imodel.relationships = [(8, ⟨relClass, 4, 6⟩)] ∧
    put 20 (.rel relAB) stateAB = (.ok 9, stateAB2) ∧
    stateAB2.imodel.relationships = [(9, ⟨relClass, 4, 6⟩)] ∧
    (stateAB2.imodel.element? 2).map (·.firTags)
      = some (some [("r1", .relMeta 9 relClass 4 6)]) ∧
    (9 : Nat) ≠ 8 := ⟨rfl, rfl, step_putAB2, rfl, rfl, by decide⟩

/-- C2: the claim says `put` is idempotent for any node: same id both times,
exactly one insert.  For the relationship `relAB` the first put returns 8 and
the second put returns 9 after deleting instance 8 and inserting instance 9
(the line-429 comparison slip), so the two calls return different ids and a
second insertion occurs. -/
theorem claimC2_put_not_idempotent :
    put 20 (.rel relAB) state0L = (.ok 8, stateAB) ∧
    put 20 (.rel relAB) stateAB = (.ok 9, stateAB2) ∧
    stateAB.imodel.relationships = [(8, ⟨relClass, 4, 6⟩)] ∧
    stateAB2.imodel.relationships = [(9, ⟨relClass, 4, 6⟩)] ∧
    (8 : Nat) ≠ 9 := ⟨step_putAB, step_putAB2, rfl, rfl, by decide⟩

/-- C3 counterexample: the claim says syncing the Group and its changed
modeled Element in either order updates the Group.  Syncing the Element first
(updating its stored provenance to 1.0.1) and then syncing the Group leaves
the state entirely unchanged — the model keeps its stale JSON `A` instead of
the description's `B`, refuting the Element-before-Group order. -/
theorem claimC3_counterexample :
    sync 20 (.elem (.node partBN)) c3mid = (.ok (), c3afterE) ∧
    sync 20 (.model (.node modelBN)) c3afterE = (.ok (), c3afterE) ∧
    (c3afterE.imodel.model? 4).map (·.jsonProps) = some (some "A") ∧
    modelBN.jsonProps = some "B" ∧
    (c3afterE.imodel.aspect? 5).map (·.version) = some (some "1.0.1") :=
  ⟨step_syncE_first, step_syncM_second, rfl, rfl, rfl⟩

/-- C3 amended: syncing the Group BEFORE the modeled Element detects the
change and updates the Group (its stored JSON becomes `B`), and the modeled
Element's own sync afterwards updates the element, leaving both current. -/
theorem claimC3_amended :
    sync 20 (.model (.node modelBN)) c3mid = (.ok (), c3afterM) ∧
    (c3mid.imodel.model? 4).map (·.jsonProps) = some (some "A") ∧
    (c3afterM.imodel.model? 4).map (·.jsonProps) = some (some "B") ∧
    sync 20 (.elem (.node partBN)) c3afterM = (.ok (), c3afterME) ∧
    (c3afterME.imodel.model? 4).map (·.jsonProps) = some (some "B") ∧
    (c3afterME.imodel.element? 4).map (·.props) = some "still models my links" ∧
    (c3afterME.imodel.aspect? 5).map (·.version) = some (some "1.0.1") :=
  ⟨step_syncM_first, rfl, rfl, step_syncE_second, rfl, rfl, rfl⟩

/-- C4: the claim says trim's relationship cleanup removes the presence tag on
the paired (other) endpoint, in particular the source's tag when the deleted
element was the target.  Trimming P deletes the untouched target T (8) and the
bookkeeping tag, but the cleanup cuts the tag from the recorded `target` —
the deleted element itself — so the source S (6) keeps its dangling `r`
presence tag. -/
theorem claimC4_source_tag_survives :
    c4state.imodel.element? 8 = some (childRow (some [("r", .presence)]) "T") ∧
    (c4state.imodel.element? 6).map (·.firTags) = some (some [("r", .presence)]) ∧
    trim 20 (.elem (.node partPN)) c4state = (.ok ⟨1, 0, 1⟩, c4done) ∧
    c4done.imodel.element? 8 = none ∧
    c4done.imodel.relationships = [] ∧
    (c4done.imodel.element? 2).map (·.firTags) = some (some []) ∧
    (c4done.imodel.element? 6).map (·.firTags) = some (some [("r", .presence)]) :=
  ⟨rfl, rfl, step_trimP, rfl, rfl, rfl, rfl⟩

/-- C8: creating the anchor `r1` from A to B and re-putting it from A to C
leaves exactly one persisted instance (11) with target C (element 9); the
stale instance 8 is deleted, the presence tag moves from B (6) to C (9), and
the bookkeeping tag is overwritten with the new triple. -/
theorem claimC8_relationship_move :
    put 20 (.rel relAB) state0L = (.ok 8, stateAB) ∧
    put 20 (.rel relAC) stateAB = (.ok 11, stateAC) ∧
    stateAC.imodel.relationships = [(11, ⟨relClass, 4, 9⟩)] ∧
    (stateAC.imodel.element? 6).map (·.firTags) = some (some []) ∧
    (stateAC.imodel.element? 9).map (·.firTags) = some (some [("r1", .presence)]) ∧
    (stateAC.imodel.element? 2).map (·.firTags)
      = some (some [("r1", .relMeta 11 relClass 4 9)]) :=
  ⟨step_putAB, step_putAC, rfl, rfl, rfl, rfl⟩

/-- C10 counterexample: the claim says resolving a Group via put never leaves
the Group's own id in the touched set.  A model's persisted id equals its
modeled element's id (the store invariant the repository's trim-on-a-Model
tests rely on), so after resolving `modelAN` the returned model id 4 is in the
touched set, via the modeled partition. -/
theorem claimC10_counterexample :
    put 20 (.model (.node modelAN)) c3a = (.ok 4, c3mid) ∧ 4 ∈ c3mid.touched :=
  ⟨step_putModelA, by decide⟩

/-- C6: change detection classifies an element as changed exactly when either
both stored and incoming provenance define versions that differ (regardless of
checksum), or the version does not settle it and both sides define checksums
that differ. -/
theorem claimC6_change_detection (a : StoredAspect) (m : Meta) :
    changeOf a m = .changed ↔
      ((a.version ≠ none ∧ m.version ≠ none ∧ a.version ≠ m.version) ∨
       (¬(a.version ≠ none ∧ m.version ≠ none ∧ a.version ≠ m.version) ∧
        a.checksum ≠ none ∧ m.checksum ≠ none ∧ a.checksum ≠ m.checksum)) := by
  unfold changeOf
  by_cases hv : a.version ≠ none ∧ m.version ≠ none ∧ a.version ≠ m.version
  · have hb : (a.version.isSome && m.version.isSome && !(a.version == m.version)) = true := by
      obtain ⟨h1, h2, h3⟩ := hv
      simp [Option.isSome_iff_ne_none, h1, h2, h3]
    simp only [hb, Bool.true_or, if_pos rfl]
    simp [hv]
  · have hb : (a.version.isSome && m.version.isSome && !(a.version == m.version)) = false := by
      rcases Decidable.not_and_iff_or_not.mp hv with h | h
      · simp [Option.isSome_iff_ne_none, Decidable.not_not.mp h]
      · rcases Decidable.not_and_iff_or_not.mp h with h2 | h2
        · simp [Option.isSome_iff_ne_none, Decidable.not_not.mp h2]
        · simp [Decidable.not_not.mp h2]
    by_cases hc : a.checksum ≠ none ∧ m.checksum ≠ none ∧ a.checksum ≠ m.checksum
    · have hcb : (a.checksum.isSome && m.checksum.isSome && !(a.checksum == m.checksum)) = true := by
        obtain ⟨h1, h2, h3⟩ := hc
        simp [Option.isSome_iff_ne_none, h1, h2, h3]
      simp only [hb, hcb, Bool.false_or, if_pos rfl]
      simp [hv, hc]
    · have hcb : (a.checksum.isSome && m.checksum.isSome && !(a.checksum == m.checksum)) = false := by
        rcases Decidable.not_and_iff_or_not.mp hc with h | h
        · simp [Option.isSome_iff_ne_none, Decidable.not_not.mp h]
        · rcases Decidable.not_and_iff_or_not.mp h with h2 | h2
          · simp [Option.isSome_iff_ne_none, Decidable.not_not.mp h2]
          · simp [Decidable.not_not.mp h2]
      simp only [hb, hcb, Bool.false_or]
      simp [hv, hc]

/-!
Growth and frame combinators.
-/

theorem gr_refl (s : SyncState) : Gr s s :=
  ⟨fun _ h => h, fun _ h => h, fun _ h => h⟩

theorem gr_trans {a b c : SyncState} (h1 : Gr a b) (h2 : Gr b c) : Gr a c :=
  ⟨fun i h => h2.1 i (h1.1 i h), fun i h => h2.2.1 i (h1.2.1 i h),
   fun i h => h2.2.2 i (h1.2.2 i h)⟩

/-- Every total run of `m` lands in `(m s).2`; growth restated without an
equation. -/
theorem grF_of_points {α : Type} {m : FirM α} (h : ∀ s, Gr s (m s).2) : GrF m := by
  intro s r s1 hrun
  have := h s
  rw [hrun] at this
  exact this

theorem grF_points {α : Type} {m : FirM α} (h : GrF m) (s : SyncState) : Gr s (m s).2 :=
  h s (m s).1 (m s).2 rfl

theorem grF_pure {α : Type} (a : α) : GrF (pure a : FirM α) :=
  grF_of_points fun s => gr_refl s

theorem grF_throw {α : Type} (e : FirErr) : GrF (throwF e : FirM α) :=
  grF_of_points fun s => gr_refl s

theorem grF_bind {α β : Type} {m : FirM α} {k : α → FirM β}
    (hm : GrF m) (hk : ∀ a, GrF (k a)) : GrF (m >>= k) := by
  apply grF_of_points
  intro s
  rw [FirM.bind_apply]
  rcases hm2 : m s with ⟨r0, s0⟩
  have hgr : Gr s s0 := hm s r0 s0 hm2
  cases r0 with
  | ok a => exact gr_trans hgr (grF_points (hk a) s0)
  | error e => exact hgr

theorem grF_ite {α : Type} {c : Prop} [Decidable c] {m1 m2 : FirM α}
    (h1 : GrF m1) (h2 : GrF m2) : GrF (if c then m1 else m2) := by
  by_cases hc : c
  · simpa [hc] using h1
  · simpa [hc] using h2

theorem grF_getS : GrF getS :=
  grF_of_points fun s => gr_refl s

theorem grF_addTouched (id : Nat) : GrF (addTouched id) :=
  grF_of_points fun s =>
    ⟨fun i h => List.mem_insert_iff.mpr (Or.inr h), fun _ h => h, fun _ h => h⟩

theorem lookup_isSome_cons {β : Type} (l : List (Nat × β)) (k a : Nat) (v : β)
    (h : (List.lookup a l).isSome = true) :
    (List.lookup a ((k, v) :: l)).isSome = true := by
  cases hak : a == k
  · simpa [List.lookup, hak] using h
  · simp [List.lookup, hak]

theorem lookup_isSome_replace {β : Type} (l : List (Nat × β)) (i a : Nat) (row : β)
    (h : (List.lookup a l).isSome = true) :
    (List.lookup a (l.map (fun p => if p.1 = i then (i, row) else p))).isSome = true := by
  induction l with
  | nil => simpa [List.lookup] using h
  | cons p t ih =>
      rcases p with ⟨k, v⟩
      by_cases hk : k = i
      · subst hk
        have hhead : (if ((k, v) : Nat × β).1 = k then (k, row) else (k, v)) = (k, row) :=
          if_pos rfl
        simp only [List.map, hhead]
        cases hak : a == k
        · simp only [List.lookup, hak] at h ⊢
          exact ih h
        · simp [List.lookup, hak]
      · have hhead : (if ((k, v) : Nat × β).1 = i then (i, row) else (k, v)) = (k, v) :=
          if_neg hk
        simp only [List.map, hhead]
        cases hak : a == k
        · simp only [List.lookup, hak] at h ⊢
          exact ih h
        · simp [List.lookup, hak]

theorem grF_insertElementM (row : StoredElement) : GrF (insertElementM row) :=
  grF_of_points fun s =>
    ⟨fun _ h => h,
     fun i h => lookup_isSome_cons s.imodel.elements s.imodel.nextId i row h,
     fun _ h => h⟩

theorem grF_updateElementM (id : Nat) (row : StoredElement) : GrF (updateElementM id row) :=
  grF_of_points fun s =>
    ⟨fun _ h => h,
     fun i h => by
       have := lookup_isSome_replace s.imodel.elements id i row h
       simpa [elemAt, IModel.element?, updateElementM, modifyImodel] using this,
     fun _ h => h⟩

theorem grF_getElementM (id : Nat) : GrF (getElementM id) := by
  apply grF_of_points
  intro s
  rcases hx : s.imodel.element? id with _ | row
  · simp only [getElementM, hx]
    exact gr_refl s
  · simp only [getElementM, hx]
    exact gr_refl s

theorem grF_getModelM (id : Nat) : GrF (getModelM id) := by
  apply grF_of_points
  intro s
  rcases hx : s.imodel.model? id with _ | row
  · simp only [getModelM, hx]
    exact gr_refl s
  · simp only [getModelM, hx]
    exact gr_refl s

theorem grF_insertAspectM (row : StoredAspect) : GrF (insertAspectM row) :=
  grF_of_points fun s => ⟨fun _ h => h, fun _ h => h, fun _ h => h⟩

theorem grF_updateAspectM (id : Nat) (row : StoredAspect) : GrF (updateAspectM id row) :=
  grF_of_points fun s => ⟨fun _ h => h, fun _ h => h, fun _ h => h⟩

theorem grF_deleteAspectsM (ids : List Nat) : GrF (deleteAspectsM ids) :=
  grF_of_points fun s => ⟨fun _ h => h, fun _ h => h, fun _ h => h⟩

theorem grF_insertModelM (modeledId : Nat) (row : StoredModel) :
    GrF (insertModelM modeledId row) :=
  grF_of_points fun s =>
    ⟨fun _ h => h, fun _ h => h,
     fun i h => lookup_isSome_cons s.imodel.models modeledId i row h⟩

theorem grF_updateModelM (id : Nat) (row : StoredModel) : GrF (updateModelM id row) :=
  grF_of_points fun s =>
    ⟨fun _ h => h, fun _ h => h,
     fun i h => by
       have := lookup_isSome_replace s.imodel.models id i row h
       simpa [modelAt, IModel.model?, updateModelM, modifyImodel] using this⟩

theorem grF_insertInstanceM (row : StoredRel) : GrF (insertInstanceM row) := by
  apply grF_of_points
  intro s
  by_cases hc : isContainmentClass row.classFullName
  · simp only [insertInstanceM, hc, if_true]
    exact gr_refl s
  · simp only [insertInstanceM, hc, if_false]
    exact ⟨fun _ h => h, fun _ h => h, fun _ h => h⟩

theorem grF_deleteInstanceM (id : Nat) : GrF (deleteInstanceM id) :=
  grF_of_points fun s => ⟨fun _ h => h, fun _ h => h, fun _ h => h⟩

theorem grF_forM {g : Aspect → FirM Unit} (hg : ∀ a, GrF (g a)) :
    ∀ l : List Aspect, GrF (List.forM l g) := by
  intro l
  induction l with
  | nil => exact grF_pure _
  | cons a t ih => exact grF_bind (hg a) (fun _ => ih)

theorem frF_points {α : Type} {m : FirM α} (h : FrF m) (s : SyncState) :
    Gr s (m s).2 ∧ (m s).2.imodel.relationships = s.imodel.relationships :=
  h s (m s).1 (m s).2 rfl

theorem frF_of_points {α : Type} {m : FirM α}
    (h : ∀ s, Gr s (m s).2 ∧ (m s).2.imodel.relationships = s.imodel.relationships) :
    FrF m := by
  intro s r s1 hrun
  have := h s
  rw [hrun] at this
  exact this

theorem frF_gr {α : Type} {m : FirM α} (h : FrF m) : GrF m :=
  fun s r s1 hrun => (h s r s1 hrun).1

theorem frF_pure {α : Type} (a : α) : FrF (pure a : FirM α) :=
  frF_of_points fun s => ⟨gr_refl s, rfl⟩

theorem frF_throw {α : Type} (e : FirErr) : FrF (throwF e : FirM α) :=
  frF_of_points fun s => ⟨gr_refl s, rfl⟩

theorem frF_bind {α β : Type} {m : FirM α} {k : α → FirM β}
    (hm : FrF m) (hk : ∀ a, FrF (k a)) : FrF (m >>= k) := by
  apply frF_of_points
  intro s
  rw [FirM.bind_apply]
  rcases hm2 : m s with ⟨r0, s0⟩
  have hstep : Gr s s0 ∧ s0.imodel.relationships = s.imodel.relationships :=
    hm s r0 s0 hm2
  cases r0 with
  | ok a =>
      have hnext := frF_points (hk a) s0
      exact ⟨gr_trans hstep.1 hnext.1, hnext.2.trans hstep.2⟩
  | error e => exact hstep

theorem frF_ite {α : Type} {c : Prop} [Decidable c] {m1 m2 : FirM α}
    (h1 : FrF m1) (h2 : FrF m2) : FrF (if c then m1 else m2) := by
  by_cases hc : c
  · simpa [hc] using h1
  · simpa [hc] using h2

theorem frF_getS : FrF getS :=
  frF_of_points fun s => ⟨gr_refl s, rfl⟩

theorem frF_addTouched (id : Nat) : FrF (addTouched id) :=
  frF_of_points fun s => ⟨grF_points (grF_addTouched id) s, rfl⟩

theorem frF_insertElementM (row : StoredElement) : FrF (insertElementM row) :=
  frF_of_points fun s => ⟨grF_points (grF_insertElementM row) s, rfl⟩

theorem frF_updateElementM (id : Nat) (row : StoredElement) : FrF (updateElementM id row) :=
  frF_of_points fun s => ⟨grF_points (grF_updateElementM id row) s, rfl⟩

theorem frF_getElementM (id : Nat) : FrF (getElementM id) := by
  apply frF_of_points
  intro s
  rcases hx : s.imodel.element? id with _ | row
  · simp only [getElementM, hx]
    exact ⟨gr_refl s, by trivial⟩
  · simp only [getElementM, hx]
    exact ⟨gr_refl s, by trivial⟩

theorem frF_getModelM (id : Nat) : FrF (getModelM id) := by
  apply frF_of_points
  intro s
  rcases hx : s.imodel.model? id with _ | row
  · simp only [getModelM, hx]
    exact ⟨gr_refl s, by trivial⟩
  · simp only [getModelM, hx]
    exact ⟨gr_refl s, by trivial⟩

theorem frF_insertAspectM (row : StoredAspect) : FrF (insertAspectM row) :=
  frF_of_points fun s => ⟨grF_points (grF_insertAspectM row) s, rfl⟩

theorem frF_updateAspectM (id : Nat) (row : StoredAspect) : FrF (updateAspectM id row) :=
  frF_of_points fun s => ⟨grF_points (grF_updateAspectM id row) s, rfl⟩

theorem frF_deleteAspectsM (ids : List Nat) : FrF (deleteAspectsM ids) :=
  frF_of_points fun s => ⟨grF_points (grF_deleteAspectsM ids) s, rfl⟩

theorem frF_insertModelM (modeledId : Nat) (row : StoredModel) :
    FrF (insertModelM modeledId row) :=
  frF_of_points fun s => ⟨grF_points (grF_insertModelM modeledId row) s, rfl⟩

theorem frF_updateModelM (id : Nat) (row : StoredModel) : FrF (updateModelM id row) :=
  frF_of_points fun s => ⟨grF_points (grF_updateModelM id row) s, rfl⟩

theorem frF_forM {g : Aspect → FirM Unit} (hg : ∀ a, FrF (g a)) :
    ∀ l : List Aspect, FrF (List.forM l g) := by
  intro l
  induction l with
  | nil => exact frF_pure _
  | cons a t ih => exact frF_bind (hg a) (fun _ => ih)

/-- The master frame induction: every function of the put family grows the
state (touched set and entity tables only gain members), and every function
that does not write the link table leaves it unchanged. -/
theorem stepAll : ∀ f : Nat,
    (∀ b, GrF (put f b)) ∧
    (∀ e, FrF (put f (.elem e))) ∧
    (∀ m, FrF (put f (.model m))) ∧
    (∀ e, FrF (putElement f e)) ∧
    (∀ m, FrF (putModel f m)) ∧
    (∀ r, GrF (putRelationship f r)) ∧
    (∀ e st, FrF (mapElement f e st)) ∧
    (∀ m st, FrF (mapModel f m st)) ∧
    (∀ r st, GrF (mapRelationship f r st)) ∧
    (∀ e, FrF (toElement f e)) ∧
    (∀ m, FrF (toModel f m)) ∧
    (∀ r, FrF (toRelationship f r)) ∧
    (∀ i mta, FrF (toExternalAspect f i mta)) ∧
    (∀ e, FrF (meta f e)) ∧
    (∀ e k v, FrF (tag f e k v)) ∧
    (∀ el ks, FrF (cutTag f el ks)) ∧
    (∀ el k, FrF (readTag f el k)) ∧
    (∀ el, FrF (readTagAll f el)) := by
  intro f
  induction f with
  | zero =>
      exact ⟨fun b => grF_throw _, fun e => frF_throw _, fun m => frF_throw _,
             fun e => frF_throw _, fun m => frF_throw _, fun r => grF_throw _,
             fun e st => frF_throw _, fun m st => frF_throw _, fun r st => grF_throw _,
             fun e => frF_throw _, fun m => frF_throw _, fun r => frF_throw _,
             fun i mta => frF_throw _, fun e => frF_throw _, fun e k v => frF_throw _,
             fun el ks => frF_throw _, fun el k => frF_throw _, fun el => frF_throw _⟩
  | succ f ih =>
      obtain ⟨ihP, ihPE, ihPM, ihputE, ihputM, ihputR, ihmapE, ihmapM, ihmapR,
              ihtoE, ihtoM, ihtoR, ihtoX, ihmeta, ihtag, ihcut, ihread, ihreadAll⟩ := ih
      have hputE : ∀ e, FrF (putElement (f + 1) e) := by
        intro e
        cases e with
        | rootSubject => exact frF_pure _
        | node en =>
            refine frF_bind (ihmeta _) (fun found => ?_)
            rcases found with ⟨f1, f2⟩
            cases f1 with
            | some id =>
                exact frF_bind (frF_pure _) (fun y =>
                  frF_bind (frF_addTouched _) (fun _ => frF_pure _))
            | none =>
                exact frF_bind (ihmapE _ _) (fun y =>
                  frF_bind (frF_addTouched _) (fun _ => frF_pure _))
      have hmapM : ∀ m st, FrF (mapModel (f + 1) m st) := by
        intro m st
        cases m with
        | repository => exact frF_pure _
        | node mn =>
            refine frF_bind (ihtoM _) (fun props => ?_)
            cases st with
            | update id =>
                exact frF_bind (frF_getModelM _) (fun found =>
                  frF_bind (frF_updateModelM _ _) (fun _ => frF_pure _))
            | new => exact frF_insertModelM _ _
      have hputM : ∀ m, FrF (putModel (f + 1) m) := by
        intro m
        cases m with
        | repository => exact frF_pure _
        | node mn =>
            refine frF_bind (ihputE _) (fun modeledId => ?_)
            refine frF_bind frF_getS (fun s => ?_)
            rcases hmo : modelOf s.imodel modeledId with _ | mid
            · exact ihmapM _ _
            · exact frF_pure _
      have hputR : ∀ r, GrF (putRelationship (f + 1) r) := by
        intro r
        refine grF_bind (frF_gr (ihread _ _)) (fun read => ?_)
        refine grF_bind (frF_gr (ihPE _)) (fun sourceId => ?_)
        refine grF_bind (frF_gr (ihPE _)) (fun targetId => ?_)
        have habsent : GrF (do
            let id ← mapRelationship f r .new
            tag f r.source r.anchor .presence
            tag f r.target r.anchor .presence
            tag f firStore r.anchor (.relMeta id r.classFullName sourceId targetId)
            pure id) :=
          grF_bind (ihmapR _ _) (fun id =>
            grF_bind (frF_gr (ihtag _ _ _)) (fun _ =>
              grF_bind (frF_gr (ihtag _ _ _)) (fun _ =>
                grF_bind (frF_gr (ihtag _ _ _)) (fun _ => grF_pure _))))
        cases read with
        | none => exact habsent
        | some tv =>
            cases tv with
            | presence => exact habsent
            | relMeta i c s0 t0 =>
                refine grF_ite (grF_pure _) ?_
                refine grF_bind
                  (grF_ite (grF_bind (frF_gr (ihcut _ _)) (fun _ => frF_gr (ihtag _ _ _)))
                    (grF_pure _)) (fun _ => ?_)
                refine grF_bind
                  (grF_ite (grF_bind (frF_gr (ihcut _ _)) (fun _ => frF_gr (ihtag _ _ _)))
                    (grF_pure _)) (fun _ => ?_)
                exact grF_bind (ihmapR _ _) (fun id =>
                  grF_bind (frF_gr (ihtag _ _ _)) (fun _ => grF_pure _))
      have hmapE : ∀ e st, FrF (mapElement (f + 1) e st) := by
        intro e st
        cases e with
        | rootSubject => exact frF_pure _
        | node en =>
            refine frF_bind (ihtoE _) (fun props => ?_)
            cases st with
            | update id =>
                refine frF_bind (frF_getElementM _) (fun found => ?_)
                refine frF_bind (frF_updateElementM _ _) (fun _ => ?_)
                refine frF_bind (frF_pure _) (fun y => ?_)
                refine frF_bind (ihtoX _ _) (fun ext => ?_)
                refine frF_bind ?_ (fun _ => ?_)
                · refine frF_bind (ihmeta _) (fun found2 => ?_)
                  rcases found2 with ⟨g1, g2⟩
                  cases g2 with
                  | some aspectId => exact frF_updateAspectM _ _
                  | none => exact frF_throw _
                · refine frF_bind ?_ (fun _ => ?_)
                  · rcases han : en.aspects with _ | l
                    · exact frF_pure _
                    · exact frF_bind frF_getS (fun s => frF_deleteAspectsM _)
                  · exact frF_bind
                      (frF_forM (fun a => frF_bind (frF_insertAspectM _) (fun _ => frF_pure _)) _)
                      (fun _ => frF_pure _)
            | new =>
                refine frF_bind (frF_insertElementM _) (fun y => ?_)
                refine frF_bind (ihtoX _ _) (fun ext => ?_)
                refine frF_bind (frF_bind (frF_insertAspectM _) (fun _ => frF_pure _))
                  (fun _ => ?_)
                refine frF_bind ?_ (fun _ => ?_)
                · rcases han : en.aspects with _ | l
                  · exact frF_pure _
                  · exact frF_bind frF_getS (fun s => frF_deleteAspectsM _)
                · exact frF_bind
                    (frF_forM (fun a => frF_bind (frF_insertAspectM _) (fun _ => frF_pure _)) _)
                    (fun _ => frF_pure _)
      have hmapR : ∀ r st, GrF (mapRelationship (f + 1) r st) := by
        intro r st
        refine grF_bind (frF_gr (ihtoR _)) (fun props => ?_)
        refine grF_bind ?_ (fun _ => grF_insertInstanceM _)
        cases st with
        | update id c s0 t0 => exact grF_deleteInstanceM _
        | new => exact grF_pure _
      have htoE : ∀ e, FrF (toElement (f + 1) e) := by
        intro e
        cases e with
        | rootSubject => exact frF_throw _
        | node en =>
            refine frF_bind (ihPM _) (fun modelId => ?_)
            rcases hp : en.parent with _ | p
            · exact frF_bind (frF_pure _) (fun y => frF_pure _)
            · cases p with
              | plain q =>
                  cases q with
                  | rootSubject => exact frF_bind (frF_pure _) (fun y => frF_pure _)
                  | node qn =>
                      exact frF_bind (ihPE _) (fun pid =>
                        frF_bind (frF_pure _) (fun y => frF_pure _))
              | withRel q rc =>
                  exact frF_bind (ihPE _) (fun pid =>
                    frF_bind (frF_pure _) (fun y => frF_pure _))
      have htoM : ∀ m, FrF (toModel (f + 1) m) := by
        intro m
        cases m with
        | repository => exact frF_throw _
        | node mn =>
            refine frF_bind (ihPE _) (fun modeledId => ?_)
            rcases hpm : mn.parentModel with _ | pm
            · exact frF_bind (frF_pure _) (fun y => frF_pure _)
            · exact frF_bind (ihPM _) (fun x =>
                frF_bind (frF_pure _) (fun y => frF_pure _))
      have htoR : ∀ r, FrF (toRelationship (f + 1) r) := by
        intro r
        exact frF_bind (ihPE _) (fun s1 => frF_bind (ihPE _) (fun t1 => frF_pure _))
      have htoX : ∀ i mta, FrF (toExternalAspect (f + 1) i mta) := by
        intro i mta
        refine frF_bind (ihPE _) (fun scopeId => ?_)
        rcases hsrc : mta.source with _ | src
        · exact frF_bind (frF_pure _) (fun y => frF_pure _)
        · exact frF_bind (ihPE _) (fun x =>
            frF_bind (frF_pure _) (fun y => frF_pure _))
      have hmeta : ∀ e, FrF (meta (f + 1) e) := by
        intro e
        cases e with
        | rootSubject => exact frF_throw _
        | node en =>
            exact frF_bind (ihPE _) (fun scope =>
              frF_bind frF_getS (fun s => frF_pure _))
      have htag : ∀ e k v, FrF (tag (f + 1) e k v) := by
        intro e k v
        cases e with
        | rootSubject => exact frF_throw _
        | node en =>
            exact frF_bind (ihPE _) (fun id0 =>
              frF_bind (frF_getElementM _) (fun found =>
                frF_bind (ihPE _) (fun id1 =>
                  frF_bind (ihPM _) (fun mid =>
                    frF_bind (frF_getElementM _) (fun found1 =>
                      frF_updateElementM _ _)))))
      have hcut : ∀ el ks, FrF (cutTag (f + 1) el ks) := by
        intro el ks
        have hbody : ∀ (m0 : FirM Nat), FrF m0 → FrF (do
            let id ← m0
            let found ← getElementM id
            match found.firTags with
            | none => pure ()
            | some fir => updateElementM id { found with firTags := some (cutTags fir ks) }) := by
          intro m0 hm0
          refine frF_bind hm0 (fun id => ?_)
          refine frF_bind (frF_getElementM _) (fun found => ?_)
          rcases hft : found.firTags with _ | fir
          · exact frF_pure _
          · exact frF_updateElementM _ _
        cases el with
        | el e =>
            cases e with
            | rootSubject => exact frF_throw _
            | node en => exact hbody _ (ihPE _)
        | id n => exact hbody _ (frF_pure _)
      have hread : ∀ el k, FrF (readTag (f + 1) el k) := by
        intro el k
        have hbody : ∀ (m0 : FirM Nat), FrF m0 → FrF (do
            let id ← m0
            let found ← getElementM id
            match found.firTags with
            | none => pure none
            | some fir => pure (fir.lookup k)) := by
          intro m0 hm0
          refine frF_bind hm0 (fun id => ?_)
          refine frF_bind (frF_getElementM _) (fun found => ?_)
          rcases hft : found.firTags with _ | fir
          · exact frF_pure _
          · exact frF_pure _
        cases el with
        | el e =>
            cases e with
            | rootSubject => exact frF_throw _
            | node en => exact hbody _ (ihPE _)
        | id n => exact hbody _ (frF_pure _)
      have hreadAll : ∀ el, FrF (readTagAll (f + 1) el) := by
        intro el
        have hbody : ∀ (m0 : FirM Nat), FrF m0 → FrF (do
            let id ← m0
            let found ← getElementM id
            match found.firTags with
            | none => pure none
            | some fir => pure (some fir)) := by
          intro m0 hm0
          refine frF_bind hm0 (fun id => ?_)
          refine frF_bind (frF_getElementM _) (fun found => ?_)
          rcases hft : found.firTags with _ | fir
          · exact frF_pure _
          · exact frF_pure _
        cases el with
        | el e =>
            cases e with
            | rootSubject => exact frF_throw _
            | node en => exact hbody _ (ihPE _)
        | id n => exact hbody _ (frF_pure _)
      have hPE : ∀ e, FrF (put (f + 1) (.elem e)) := by
        intro e
        cases e with
        | rootSubject => exact frF_pure _
        | node en => exact ihputE _
      have hPM : ∀ m, FrF (put (f + 1) (.model m)) := by
        intro m
        cases m with
        | repository => exact frF_pure _
        | node mn => exact ihputM _
      have hP : ∀ b, GrF (put (f + 1) b) := by
        intro b
        cases b with
        | elem e => exact frF_gr (hPE _)
        | model m => exact frF_gr (hPM _)
        | rel r => exact ihputR _
      exact ⟨hP, hPE, hPM, hputE, hputM, hputR, hmapE, hmapM, hmapR,
             htoE, htoM, htoR, htoX, hmeta, htag, hcut, hread, hreadAll⟩

/-!
Run-elimination helpers for symbolic execution of concrete runs.
-/

theorem bind_ok_elim {α β : Type} {m : FirM α} {k : α → FirM β} {s s2 : SyncState}
    {b : β} (h : (m >>= k) s = (.ok b, s2)) :
    ∃ a s1, m s = (.ok a, s1) ∧ k a s1 = (.ok b, s2) := by
  rw [FirM.bind_apply] at h
  rcases hm : m s with ⟨r1, s1⟩
  rw [hm] at h
  cases r1 with
  | ok a => exact ⟨a, s1, rfl, h⟩
  | error e => simp at h

theorem bind_elim {α β : Type} {m : FirM α} {k : α → FirM β} {s s2 : SyncState}
    {r : Except FirErr β} (h : (m >>= k) s = (r, s2)) :
    (∃ a s1, m s = (.ok a, s1) ∧ k a s1 = (r, s2)) ∨
    (∃ e s1, m s = (.error e, s1) ∧ r = .error e ∧ s2 = s1) := by
  rw [FirM.bind_apply] at h
  rcases hm : m s with ⟨r1, s1⟩
  rw [hm] at h
  cases r1 with
  | ok a => exact Or.inl ⟨a, s1, rfl, h⟩
  | error e =>
      have hr := congrArg Prod.fst h
      have hs := congrArg Prod.snd h
      exact Or.inr ⟨e, s1, rfl, hr.symm, hs.symm⟩

theorem pure_ok_elim {α : Type} {a b : α} {s s2 : SyncState}
    (h : (pure a : FirM α) s = (.ok b, s2)) : a = b ∧ s2 = s := by
  have h2 : ((.ok a, s) : Except FirErr α × SyncState) = (.ok b, s2) := h
  have ha := congrArg Prod.fst h2
  have hs := congrArg Prod.snd h2
  simp at ha hs
  exact ⟨ha, hs.symm⟩

theorem getS_ok_elim {s s2 : SyncState} {a : SyncState}
    (h : getS s = (.ok a, s2)) : a = s ∧ s2 = s := by
  have h2 : ((.ok s, s) : Except FirErr SyncState × SyncState) = (.ok a, s2) := h
  have ha := congrArg Prod.fst h2
  have hs := congrArg Prod.snd h2
  simp at ha hs
  exact ⟨ha.symm, hs.symm⟩

theorem addTouched_run (id : Nat) (s : SyncState) :
    addTouched id s = (.ok (), { s with touched := s.touched.insert id }) := rfl

/-!
Touched-set lemmas: `putElement` records the id it returns; resolving a model
returns an id recorded via its modeled element.
-/

/-- A successful `putElement` on a non-sentinel node leaves the returned id in
the touched set. -/
theorem putElement_node_touched (f : Nat) (en : ElementNode) (s s1 : SyncState) (id : Nat)
    (h : putElement f (.node en) s = (.ok id, s1)) : id ∈ s1.touched := by
  cases f with
  | zero => simp [putElement, throwF] at h
  | succ f =>
      simp only [putElement] at h
      obtain ⟨found, s0, hm, h⟩ := bind_ok_elim h
      rcases found with ⟨f1, f2⟩
      cases f1 with
      | some i0 =>
          obtain ⟨y, sY, hp, h⟩ := bind_ok_elim h
          obtain ⟨hy, hsY⟩ := pure_ok_elim hp
          obtain ⟨u, sU, ha, h⟩ := bind_ok_elim h
          obtain ⟨hid, hs1⟩ := pure_ok_elim h
          rw [addTouched_run] at ha
          have hsU := congrArg Prod.snd ha
          simp at hsU
          subst hid
          rw [hs1, ← hsU]
          exact List.mem_insert_self _ _
      | none =>
          obtain ⟨y, sY, hp, h⟩ := bind_ok_elim h
          obtain ⟨u, sU, ha, h⟩ := bind_ok_elim h
          obtain ⟨hid, hs1⟩ := pure_ok_elim h
          rw [addTouched_run] at ha
          have hsU := congrArg Prod.snd ha
          simp at hsU
          subst hid
          rw [hs1, ← hsU]
          exact List.mem_insert_self _ _

/-- A successful `put` of a non-sentinel element leaves the returned id in the
touched set. -/
theorem put_elem_node_touched (f : Nat) (en : ElementNode) (s s1 : SyncState) (id : Nat)
    (h : put f (.elem (.node en)) s = (.ok id, s1)) : id ∈ s1.touched := by
  cases f with
  | zero => simp [put, throwF] at h
  | succ f => exact putElement_node_touched f en s s1 id h

/-- A successful `toModel` of a model over a non-sentinel modeled element
leaves the modeled id of the produced props in the touched set. -/
theorem toModel_modeledId_touched (f : Nat) (mn : ModelNode) (en : ElementNode)
    (s s1 : SyncState) (props : ModelProps)
    (hme : mn.modeledElement = .node en)
    (h : toModel f (.node mn) s = (.ok props, s1)) : props.modeledId ∈ s1.touched := by
  cases f with
  | zero => simp [toModel, throwF] at h
  | succ f =>
      simp only [toModel] at h
      obtain ⟨modeledId, s0, hput, h⟩ := bind_ok_elim h
      rw [hme] at hput
      have hmem : modeledId ∈ s0.touched := put_elem_node_touched f en s s0 modeledId hput
      rcases hpm : mn.parentModel with _ | pm
      · rw [hpm] at h
        obtain ⟨y, sY, hp, h⟩ := bind_ok_elim h
        obtain ⟨hy, hsY⟩ := pure_ok_elim hp
        obtain ⟨hprops, hs1⟩ := pure_ok_elim h
        rw [← hprops, hs1, hsY]
        simpa using hmem
      · rw [hpm] at h
        obtain ⟨x, sX, hpmrun, h⟩ := bind_ok_elim h
        have hgrow : Gr s0 sX := ((stepAll f).2.2.1 pm) s0 (.ok x) sX hpmrun |>.1
        obtain ⟨y, sY, hp, h⟩ := bind_ok_elim h
        obtain ⟨hy, hsY⟩ := pure_ok_elim hp
        obtain ⟨hprops, hs1⟩ := pure_ok_elim h
        rw [← hprops, hs1, hsY]
        simpa using hgrow.1 modeledId hmem

/-- A model row found by `modelOf` is keyed by the queried element. -/
theorem modelOf_eq (im : IModel) (x y : Nat) (h : modelOf im x = some y) : y = x := by
  unfold modelOf at h
  by_cases hs : (im.model? x).isSome
  · rw [if_pos hs] at h
    exact (Option.some.injEq _ _ ▸ h).symm
  · rw [if_neg hs] at h
    cases h

/-- A successful `putModel` on a model over a non-sentinel modeled element
returns an id that is in the touched set: the model's persisted id is its
modeled Element's id, which `putElement` recorded. -/
theorem putModel_node_touched (f : Nat) (mn : ModelNode) (en : ElementNode)
    (s s1 : SyncState) (id : Nat)
    (hme : mn.modeledElement = .node en)
    (h : putModel f (.node mn) s = (.ok id, s1)) : id ∈ s1.touched := by
  cases f with
  | zero => simp [putModel, throwF] at h
  | succ f =>
      simp only [putModel] at h
      obtain ⟨modeledId, s0, hput, h⟩ := bind_ok_elim h
      rw [hme] at hput
      have hmem : modeledId ∈ s0.touched := putElement_node_touched f en s s0 modeledId hput
      obtain ⟨st, sT, hgs, h⟩ := bind_ok_elim h
      obtain ⟨hst, hsT⟩ := getS_ok_elim hgs
      rw [hst] at h
      rw [hsT] at h
      rcases hmo : modelOf s0.imodel modeledId with _ | mid
      · simp only [hmo] at h
        cases f with
        | zero => simp [mapModel, toModel, FirM.bind_apply, throwF] at h
        | succ g =>
            simp only [mapModel] at h
            obtain ⟨props, s2, htm, h⟩ := bind_ok_elim h
            have hpm : props.modeledId ∈ s2.touched :=
              toModel_modeledId_touched g mn en s0 s2 props hme htm
            have h2 : ((.ok props.modeledId,
                { s2 with imodel := { s2.imodel with
                    models := (props.modeledId,
                      { classFullName := props.classFullName
                        parentModelId := props.parentModelId
                        jsonProps := props.userJson, props := props.props }) ::
                      s2.imodel.models } }) : Except FirErr Nat × SyncState) = (.ok id, s1) := h
            have hida := congrArg Prod.fst h2
            have hsa := congrArg Prod.snd h2
            simp at hida hsa
            rw [← hsa, ← hida]
            simpa using hpm
      · simp only [hmo] at h
        obtain ⟨hid, hs1⟩ := pure_ok_elim h
        have hmid : mid = modeledId := modelOf_eq _ _ _ hmo
        rw [← hid, hs1, hmid]
        exact hmem

/-- A successful `put` of a model node over a non-sentinel modeled element
leaves the returned id in the touched set. -/
theorem put_model_node_touched (f : Nat) (mn : ModelNode) (en : ElementNode)
    (s s1 : SyncState) (id : Nat) (hme : mn.modeledElement = .node en)
    (h : put f (.model (.node mn)) s = (.ok id, s1)) : id ∈ s1.touched := by
  cases f with
  | zero => simp [put, throwF] at h
  | succ f => exact putModel_node_touched f mn en s s1 id hme h

/-- C10 (amended): resolving a non-sentinel Group via `putModel` returns an id
that IS in the session's touched set — the model's persisted id is its modeled
Element's id, which `putElement` recorded; `putModel` itself performs no
touched-set insertion. -/
theorem claimC10_amended (f : Nat) (mn : ModelNode) (en : ElementNode)
    (s s1 : SyncState) (id : Nat)
    (hme : mn.modeledElement = .node en)
    (h : putModel f (.node mn) s = (.ok id, s1)) : id ∈ s1.touched :=
  putModel_node_touched f mn en s s1 id hme h

/-- C10 amended witness: resolving the concrete model over `c3a` returns id 4
with 4 in the touched set. -/
theorem claimC10_witness :
    putModel 20 (.node modelAN) c3a = (.ok 4, c3mid) ∧ 4 ∈ c3mid.touched := by
  refine ⟨rfl, ?_⟩
  exact claimC10_amended 20 modelAN partAN c3a c3mid 4 rfl (by rfl)

theorem pure_not_error {α : Type} {a : α} {e : FirErr} {s s2 : SyncState}
    (h : (pure a : FirM α) s = (.error e, s2)) : False := by
  have h2 : ((.ok a, s) : Except FirErr α × SyncState) = (.error e, s2) := h
  simp at h2

theorem getS_not_error {e : FirErr} {s s2 : SyncState}
    (h : getS s = (.error e, s2)) : False := by
  have h2 : ((.ok s, s) : Except FirErr SyncState × SyncState) = (.error e, s2) := h
  simp at h2

theorem addTouched_not_error {id : Nat} {e : FirErr} {s s2 : SyncState}
    (h : addTouched id s = (.error e, s2)) : False := by
  have h2 : ((.ok (), { s with touched := s.touched.insert id }) :
      Except FirErr Unit × SyncState) = (.error e, s2) := h
  simp at h2

/-!
C9 machinery: a `put` of an element whose provenance chain already resolves in
the store returns the resolved id without changing the store.
-/

/-- Simultaneous induction for C9 over `put`, `putElement` and `meta`: when
the element's provenance chain resolves to `i` in the current store, each run
either dies of fuel exhaustion with the state untouched, or returns `i` (for
`meta`: finds `i`) with the persisted store unchanged. -/
theorem putFound (f : Nat) :
    (∀ el s i r s1, resolveChain el s.imodel = some i →
       put f (.elem el) s = (r, s1) →
       (r = .error .outOfFuel ∧ s1 = s) ∨ (r = .ok i ∧ s1.imodel = s.imodel)) ∧
    (∀ en s i r s1, resolveChainNode en s.imodel = some i →
       putElement f (.node en) s = (r, s1) →
       (r = .error .outOfFuel ∧ s1 = s) ∨
       (r = .ok i ∧ s1.imodel = s.imodel ∧ i ∈ s1.touched)) ∧
    (∀ en s i r s1, resolveChainNode en s.imodel = some i →
       meta f (.node en) s = (r, s1) →
       (r = .error .outOfFuel ∧ s1 = s) ∨
       (∃ aid, r = .ok (some i, aid) ∧ s1.imodel = s.imodel)) := by
  induction f with
  | zero =>
      refine ⟨fun el s i r s1 _ hrun => ?_, fun en s i r s1 _ hrun => ?_,
              fun en s i r s1 _ hrun => ?_⟩ <;>
        exact Or.inl ⟨(congrArg Prod.fst hrun).symm, (congrArg Prod.snd hrun).symm⟩
  | succ f ih =>
      obtain ⟨ih1, ih2, ih3⟩ := ih
      have h3 : ∀ en s i r s1, resolveChainNode en s.imodel = some i →
          meta (f + 1) (.node en) s = (r, s1) →
          (r = .error .outOfFuel ∧ s1 = s) ∨
          (∃ aid, r = .ok (some i, aid) ∧ s1.imodel = s.imodel) := by
        intro en s i r s1 hres hrun
        obtain ⟨cls, mdl, par, mta, asp, js, pr⟩ := en
        obtain ⟨scope, src, anchor, kind, ver, ck⟩ := mta
        simp only [resolveChainNode, resolveChainMeta] at hres
        rcases hrc : resolveChain scope s.imodel with _ | sid
        · simp [hrc] at hres
        · simp only [hrc] at hres
          simp only [meta] at hrun
          rcases bind_elim hrun with ⟨sc, s0, hput, hrun⟩ | ⟨e, s0, hput, hr, hs1⟩
          · rcases ih1 scope s sid (.ok sc) s0 hrc hput with ⟨heq, _⟩ | ⟨hoksc, him⟩
            · cases heq
            · have hsc : sc = sid := by injection hoksc
              rcases bind_elim hrun with ⟨st, sT, hgs, hrun⟩ | ⟨e, sT, hgs, hr, hs1⟩
              · obtain ⟨hst, hsT⟩ := getS_ok_elim hgs
                rw [hst, hsT] at hrun
                have hr : r = .ok (findBySource s0.imodel sc kind anchor) :=
                  (congrArg Prod.fst hrun).symm
                have hs1 : s1 = s0 := (congrArg Prod.snd hrun).symm
                rcases hfb : findBySource s.imodel sid kind anchor with ⟨o1, o2⟩
                rw [hfb] at hres
                simp at hres
                refine Or.inr ⟨o2, ?_, by rw [hs1, him]⟩
                rw [hr, hsc, him, hfb, hres]
              · exact (getS_not_error hgs).elim
          · rcases ih1 scope s sid (.error e) s0 hrc hput with ⟨heq, hseq⟩ | ⟨hok, _⟩
            · have he : e = .outOfFuel := by injection heq
              exact Or.inl ⟨by rw [hr, he], by rw [hs1, hseq]⟩
            · cases hok
      have h2 : ∀ en s i r s1, resolveChainNode en s.imodel = some i →
          putElement (f + 1) (.node en) s = (r, s1) →
          (r = .error .outOfFuel ∧ s1 = s) ∨
          (r = .ok i ∧ s1.imodel = s.imodel ∧ i ∈ s1.touched) := by
        intro en s i r s1 hres hrun
        simp only [putElement] at hrun
        rcases bind_elim hrun with ⟨found, s0, hmeta, hrun⟩ | ⟨e, s0, hmeta, hr, hs1⟩
        · rcases ih3 en s i (.ok found) s0 hres hmeta with ⟨heq, _⟩ | ⟨aid, hok, him⟩
          · cases heq
          · have hfound : found = (some i, aid) := by injection hok
            rw [hfound] at hrun
            rcases bind_elim hrun with ⟨y, sY, hp, hrun⟩ | ⟨e, sY, hp, hr, hs1⟩
            · obtain ⟨hy, hsY⟩ := pure_ok_elim hp
              rcases bind_elim hrun with ⟨u, sU, ha, hrun⟩ | ⟨e, sU, ha, hr, hs1⟩
              · rw [addTouched_run] at ha
                have hu2 : sU = { sY with touched := sY.touched.insert y } :=
                  (congrArg Prod.snd ha).symm
                have hr : r = .ok y := (congrArg Prod.fst hrun).symm
                have hs1' : s1 = sU := (congrArg Prod.snd hrun).symm
                refine Or.inr ⟨by rw [hr, ← hy], ?_, ?_⟩
                · rw [hs1', hu2]
                  show sY.imodel = s.imodel
                  rw [hsY, him]
                · rw [hs1', hu2]
                  show i ∈ sY.touched.insert y
                  rw [← hy]
                  exact List.mem_insert_self _ _
              · exact (addTouched_not_error ha).elim
            · exact (pure_not_error hp).elim
        · rcases ih3 en s i (.error e) s0 hres hmeta with ⟨heq, hseq⟩ | ⟨aid, hok, _⟩
          · have he : e = .outOfFuel := by injection heq
            exact Or.inl ⟨by rw [hr, he], by rw [hs1, hseq]⟩
          · cases hok
      refine ⟨?_, h2, h3⟩
      intro el s i r s1 hres hrun
      cases el with
      | rootSubject =>
          have hi : some rootSubjectId = some i := hres
          have hi2 : rootSubjectId = i := by injection hi
          have hr : r = .ok rootSubjectId := (congrArg Prod.fst hrun).symm
          have hs : s1 = s := (congrArg Prod.snd hrun).symm
          exact Or.inr ⟨by rw [hr, hi2], by rw [hs]⟩
      | node en =>
          have hres' : resolveChainNode en s.imodel = some i := hres
          have hrun' : putElement f (.node en) s = (r, s1) := hrun
          rcases ih2 en s i r s1 hres' hrun' with ⟨ha, hb⟩ | ⟨ha, hb, _⟩
          · exact Or.inl ⟨ha, hb⟩
          · exact Or.inr ⟨ha, hb⟩

/-- C9: resolving an element that is already found by its provenance returns
the stored id without any write to the persistent store; the only session
mutation is recording the id in the touched set. -/
theorem claimC9_found_no_write (f : Nat) (en : ElementNode) (i : Nat)
    (s s1 : SyncState) (id : Nat)
    (hres : resolveChain (.node en) s.imodel = some i)
    (h : put f (.elem (.node en)) s = (.ok id, s1)) :
    id = i ∧ s1.imodel = s.imodel ∧ id ∈ s1.touched := by
  cases f with
  | zero => simp [put, throwF] at h
  | succ f =>
      have hres' : resolveChainNode en s.imodel = some i := hres
      have h' : putElement f (.node en) s = (.ok id, s1) := h
      rcases (putFound f).2.1 en s i (.ok id) s1 hres' h' with ⟨heq, _⟩ | ⟨hok, him, hmem⟩
      · cases heq
      · have hh : id = i := by injection hok
        exact ⟨hh, him, by rw [hh]; exact hmem⟩

/-- C9 witness: the partition element of the concrete scenario resolves to 4
in `c3a`'s store, and the `put` returns 4 with the store and state unchanged
(4 was already touched). -/
theorem claimC9_witness :
    resolveChain (.node partAN) c3a.imodel = some 4 ∧
    (4 = 4 ∧ c3a.imodel = c3a.imodel ∧ 4 ∈ c3a.touched) := by
  refine ⟨rfl, ?_⟩
  exact claimC9_found_no_write 20 partAN 4 c3a c3a 4 rfl (by rfl)

/-- The relationship props assembled by `toRelationship` carry the node's
class verbatim. -/
theorem toRelationship_class (g : Nat) (r : Rel) (s s1 : SyncState) (props : StoredRel)
    (h : toRelationship g r s = (.ok props, s1)) :
    props.classFullName = r.classFullName := by
  cases g with
  | zero => simp [toRelationship, throwF] at h
  | succ g =>
      simp only [toRelationship] at h
      obtain ⟨a, sa, _, h⟩ := bind_ok_elim h
      obtain ⟨b, sb, _, h⟩ := bind_ok_elim h
      obtain ⟨hp, _⟩ := pure_ok_elim h
      rw [← hp]

/-- C7: a `put` of a relationship whose class denotes parent/child containment
raises `invalidRelationshipClass` from the instance insert, and nothing is
added to the link table: the run reads no cached tag, resolves both endpoints,
assembles the props and dies in `insertInstanceM` before any tag write. -/
theorem claimC7_containment_rejected (g : Nat) (r : Rel)
    (s s1 s2 s3 s4 : SyncState) (props : StoredRel) (srcId tgtId : Nat)
    (hc : isContainmentClass r.classFullName = true)
    (h2 : readTag (g + 1) (.el firStore) r.anchor s = (.ok none, s1))
    (h3 : put (g + 1) (.elem r.source) s1 = (.ok srcId, s2))
    (h4 : put (g + 1) (.elem r.target) s2 = (.ok tgtId, s3))
    (h5 : toRelationship g r s3 = (.ok props, s4)) :
    putRelationship (g + 1 + 1) r s = (.error .invalidRelationshipClass, s4) ∧
    s4.imodel.relationships = s.imodel.relationships := by
  have hclass : props.classFullName = r.classFullName :=
    toRelationship_class g r s3 s4 props h5
  have hiins : insertInstanceM props s4 = (.error .invalidRelationshipClass, s4) := by
    simp [insertInstanceM, hclass, hc]
  have hmap : mapRelationship (g + 1) r .new s3 =
      (.error .invalidRelationshipClass, s4) := by
    simp only [mapRelationship, FirM.bind_apply, FirM.pure_apply, h5, hiins]
  constructor
  · simp only [putRelationship, FirM.bind_apply, FirM.pure_apply, h2, h3, h4, hmap]
  · obtain ⟨hP, hPE, hPM, hputE, hputM, hputR, hmapE, hmapM, hmapR,
            htoE, htoM, htoR1, htoX, hmeta, htag, hcut, hread, hreadAll⟩ :=
      stepAll (g + 1)
    obtain ⟨gP, gPE, gPM, gputE, gputM, gputR, gmapE, gmapM, gmapR,
            gtoE, gtoM, gtoR, gtoX, gmeta, gtag, gcut, gread, greadAll⟩ :=
      stepAll g
    have e1 := hread (.el firStore) r.anchor s (.ok none) s1 h2
    have e2 := hPE r.source s1 (.ok srcId) s2 h3
    have e3 := hPE r.target s2 (.ok tgtId) s3 h4
    have e4 := gtoR r s3 (.ok props) s4 h5
    exact e4.2.trans (e3.2.trans (e2.2.trans e1.2))

/-- C7 witness: the containment-class relationship of the concrete scenario is
rejected over `c4state`, with the link table left as it was. -/
theorem claimC7_witness :
    isContainmentClass relPS.classFullName = true ∧
    (putRelationship 22 relPS c4state = (.error .invalidRelationshipClass, c7mid) ∧
     c7mid.imodel.relationships = c4state.imodel.relationships) := by
  refine ⟨rfl, ?_⟩
  exact claimC7_containment_rejected 20 relPS c4state c4state c7mid c7mid c7mid
    ⟨relPS.classFullName, 4, 6⟩ 4 6 rfl (by rfl) (by rfl) (by rfl) (by rfl)

/-!
C5 machinery: conservation of touched entities across the trimmer.
-/

theorem tpres_refl (s : SyncState) : TPres s s :=
  ⟨fun _ h => h, fun _ _ h => h, fun _ _ h => h⟩

theorem tpres_trans {a b c : SyncState} (h1 : TPres a b) (h2 : TPres b c) : TPres a c :=
  ⟨fun i hi => h2.1 i (h1.1 i hi),
   fun i hi he => h2.2.1 i (h1.1 i hi) (h1.2.1 i hi he),
   fun i hi hm => h2.2.2 i (h1.1 i hi) (h1.2.2 i hi hm)⟩

theorem gr_tpres {s s1 : SyncState} (h : Gr s s1) : TPres s s1 :=
  ⟨h.1, fun i _ he => h.2.1 i he, fun i _ hm => h.2.2 i hm⟩

/-- An association-list lookup survives a filter that keeps the key. -/
theorem lookup_isSome_filter {β : Type} (l : List (Nat × β)) (q : Nat × β → Bool) (a : Nat)
    (hq : ∀ v, q (a, v) = true) (h : (List.lookup a l).isSome = true) :
    (List.lookup a (l.filter q)).isSome = true := by
  induction l with
  | nil => simp [List.lookup] at h
  | cons p t ih =>
      rcases p with ⟨k, v⟩
      cases hak : a == k
      · simp only [List.lookup, hak] at h
        by_cases hqp : q (k, v) = true
        · simp only [List.filter, hqp]
          simp only [List.lookup, hak]
          exact ih h
        · have hqf : q (k, v) = false := by
            cases hq2 : q (k, v)
            · rfl
            · exact absurd hq2 hqp
          simp only [List.filter, hqf]
          exact ih h
      · have hak2 : a = k := by simpa using hak
        subst hak2
        have hqp : q (a, v) = true := hq v
        simp only [List.filter, hqp]
        simp [List.lookup]

/-- `deleteElementM` removes exactly the requested element: the touched set is
untouched, models are untouched, and every other element survives. -/
theorem deleteElementM_pres (bid : Nat) (s : SyncState) :
    (deleteElementM bid s).2.touched = s.touched ∧
    (∀ id, id ≠ bid → elemAt s id → elemAt (deleteElementM bid s).2 id) ∧
    (∀ id, id ≠ bid → modelAt s id → modelAt (deleteElementM bid s).2 id) := by
  refine ⟨rfl, ?_, fun id hne hm => hm⟩
  intro id hne he
  exact lookup_isSome_filter _ _ _ (fun v => by simp [hne]) he

/-- `deleteModelM` removes exactly the requested model row. -/
theorem deleteModelM_pres (bid : Nat) (s : SyncState) :
    (deleteModelM bid s).2.touched = s.touched ∧
    (∀ id, id ≠ bid → elemAt s id → elemAt (deleteModelM bid s).2 id) ∧
    (∀ id, id ≠ bid → modelAt s id → modelAt (deleteModelM bid s).2 id) := by
  refine ⟨rfl, fun id hne he => he, ?_⟩
  intro id hne hm
  exact lookup_isSome_filter _ _ _ (fun v => by simp [hne]) hm

/-- `deleteDefinitionElementsM` on a singleton removes at most that element. -/
theorem deleteDefsM_pres (bid : Nat) (s : SyncState) :
    (deleteDefinitionElementsM [bid] s).2.touched = s.touched ∧
    (∀ id, id ≠ bid → elemAt s id → elemAt (deleteDefinitionElementsM [bid] s).2 id) ∧
    (∀ id, id ≠ bid → modelAt s id → modelAt (deleteDefinitionElementsM [bid] s).2 id) := by
  refine ⟨rfl, ?_, fun id hne hm => hm⟩
  intro id hne he
  exact lookup_isSome_filter _ _ _ (fun v => by simp [hne]) he

theorem modifyImodel_not_error {g : IModel → IModel} {e : FirErr} {s s2 : SyncState}
    (h : modifyImodel g s = (.error e, s2)) : False := by
  have h2 : ((.ok (), { s with imodel := g s.imodel }) :
      Except FirErr Unit × SyncState) = (.error e, s2) := h
  simp at h2

theorem deleteDefsM_not_error {ids : List Nat} {e : FirErr} {s s2 : SyncState}
    (h : deleteDefinitionElementsM ids s = (.error e, s2)) : False := by
  have h2 : (Except.ok 0 : Except FirErr Nat) = Except.error e := congrArg Prod.fst h
  exact Except.noConfusion h2

/-- A model found by `tryGetSubModel` is keyed by the queried element. -/
theorem tryGetSubModel_eq {im : IModel} {b x : Nat} (h : tryGetSubModel im b = some x) :
    x = b := by
  unfold tryGetSubModel at h
  by_cases hs : (im.model? b).isSome
  · rw [if_pos hs] at h
    exact (Option.some.injEq _ _ ▸ h).symm
  · rw [if_neg hs] at h
    cases h

/-- `getElementM` never changes the state. -/
theorem getElementM_state {id : Nat} {s : SyncState} {r : Except FirErr StoredElement}
    {s1 : SyncState} (h : getElementM id s = (r, s1)) : s1 = s := by
  simp only [getElementM] at h
  cases h2 : s.imodel.element? id with
  | none => rw [h2] at h; exact (congrArg Prod.snd h).symm
  | some row => rw [h2] at h; exact (congrArg Prod.snd h).symm

/-- Case split on a conditional run. -/
theorem ite_run_elim {α : Type} {c : Prop} [Decidable c] {m1 m2 : FirM α}
    {s s2 : SyncState} {r : Except FirErr α} (h : (if c then m1 else m2) s = (r, s2)) :
    (c ∧ m1 s = (r, s2)) ∨ (¬c ∧ m2 s = (r, s2)) := by
  by_cases hc : c
  · rw [if_pos hc] at h; exact Or.inl ⟨hc, h⟩
  · rw [if_neg hc] at h; exact Or.inr ⟨hc, h⟩

/-- The relationship cleanup of the trimmer only cuts tags: it grows the
touched set and removes no element or model rows. -/
theorem trimGr : ∀ f : Nat,
    (∀ e, GrF (trimRelationship f e)) ∧ (∀ e l, GrF (trimAnchors f e l)) := by
  intro f
  induction f with
  | zero => exact ⟨fun e => grF_throw _, fun e l => grF_throw _⟩
  | succ f ih =>
      obtain ⟨ihTR, ihTA⟩ := ih
      obtain ⟨hP, hPE, hPM, hputE, hputM, hputR, hmapE, hmapM, hmapR,
              htoE, htoM, htoR, htoX, hmeta, htag, hcut, hread, hreadAll⟩ := stepAll f
      have hTA : ∀ e l, GrF (trimAnchors (f + 1) e l) := by
        intro e l
        cases l with
        | nil => exact grF_pure _
        | cons anchor rest =>
            refine grF_bind (frF_gr (hread _ _)) (fun rr => grF_bind ?_ (fun _ => ihTA e rest))
            cases rr with
            | none => exact grF_throw _
            | some tv =>
                cases tv with
                | presence => exact grF_bind (frF_gr (hcut _ _)) (fun _ => grF_throw _)
                | relMeta i c sc t =>
                    exact grF_bind (frF_gr (hcut _ _)) (fun _ => frF_gr (hcut _ _))
      refine ⟨?_, hTA⟩
      intro e
      refine grF_bind (frF_gr (hreadAll _)) (fun rs => ?_)
      cases rs with
      | none => exact grF_pure _
      | some fir =>
          exact grF_ite (grF_pure _) (grF_bind (frF_gr (hcut _ _)) (fun _ => ihTA _ _))

/-- Composition step for one guarded delete: a conserving prefix, a growth
segment, then a delete of the untouched branch conserves all entry-touched
entities. -/
theorem tpres_step_del1 {s sC sE sF : SyncState} {b : Nat}
    (p : TPres s sC) (hb : b ∉ sC.touched) (g : Gr sC sE)
    (hdel : sF.touched = sE.touched ∧
      (∀ id, id ≠ b → elemAt sE id → elemAt sF id) ∧
      (∀ id, id ≠ b → modelAt sE id → modelAt sF id)) :
    TPres s sF := by
  refine ⟨?_, ?_, ?_⟩
  · intro id hid
    rw [hdel.1]
    exact g.1 id (p.1 id hid)
  · intro id hid he
    have hne : id ≠ b := fun hEq => hb (hEq ▸ p.1 id hid)
    exact hdel.2.1 id hne (g.2.1 id (p.2.1 id hid he))
  · intro id hid hm
    have hne : id ≠ b := fun hEq => hb (hEq ▸ p.1 id hid)
    exact hdel.2.2 id hne (g.2.2 id (p.2.2 id hid hm))

/-- The post-order trim walk conserves touched entities: every deletion is
guarded by the branch being absent from the touched set. -/
theorem trimTreeTPres : ∀ f : Nat,
    (∀ b, TrF (trimTree f b)) ∧ (∀ l, TrF (trimChildren f l)) := by
  intro f
  induction f with
  | zero =>
      constructor
      · intro b s r s1 h
        have hs : s1 = s := (congrArg Prod.snd h).symm
        rw [hs]; exact tpres_refl s
      · intro l s r s1 h
        have hs : s1 = s := (congrArg Prod.snd h).symm
        rw [hs]; exact tpres_refl s
  | succ f ih =>
      obtain ⟨ihTT, ihTC⟩ := ih
      have hTC : ∀ l, TrF (trimChildren (f + 1) l) := by
        intro l
        cases l with
        | nil =>
            intro s r s1 h
            have hs : s1 = s := (congrArg Prod.snd h).symm
            rw [hs]; exact tpres_refl s
        | cons c cs =>
            intro s r s1 h
            simp only [trimChildren] at h
            rcases bind_elim h with ⟨d, sa, hd, h⟩ | ⟨e, sa, hd, hr, hs1⟩
            · have p1 : TPres s sa := ihTT c s _ sa hd
              rcases bind_elim h with ⟨rest, sb, hrest, h⟩ | ⟨e, sb, hrest, hr, hs1⟩
              · have p2 : TPres sa sb := ihTC cs sa _ sb hrest
                have hs : s1 = sb := (congrArg Prod.snd h).symm
                rw [hs]; exact tpres_trans p1 p2
              · rw [hs1]; exact tpres_trans p1 (ihTC cs sa _ sb hrest)
            · rw [hs1]; exact ihTT c s _ sa hd
      refine ⟨?_, hTC⟩
      intro b s r s1 h
      simp only [trimTree] at h
      rcases bind_elim h with ⟨s0v, sA, hgs, h⟩ | ⟨e, sA, hgs, hr, hs1⟩
      swap
      · exact (getS_not_error hgs).elim
      obtain ⟨hs0, hsA⟩ := getS_ok_elim hgs
      rw [hs0, hsA] at h
      rcases bind_elim h with ⟨acc, sB, hacc, h⟩ | ⟨e, sB, hacc, hr, hs1⟩
      swap
      ·
        rw [hs1]; exact ihTC _ s _ sB hacc
      have p1 : TPres s sB := ihTC _ s _ sB hacc
      rcases bind_elim h with ⟨element, sC, hel, h⟩ | ⟨e, sC, hel, hr, hs1⟩
      swap
      ·
        rw [hs1, getElementM_state hel]; exact p1
      have hsC : sC = sB := getElementM_state hel
      rw [hsC] at h
      rcases bind_elim h with ⟨s2v, sD, hgs2, h⟩ | ⟨e, sD, hgs2, hr, hs1⟩
      swap
      · exact (getS_not_error hgs2).elim
      obtain ⟨hs2, hsD⟩ := getS_ok_elim hgs2
      rw [hs2, hsD] at h
      rcases ite_run_elim h with ⟨hg, h⟩ | ⟨hg, h⟩
      swap
      ·
        have hs : s1 = sB := (congrArg Prod.snd h).symm
        rw [hs]; exact p1
      have hbB : b ∉ sB.touched := hg.2.1
      rcases ite_run_elim h with ⟨hel1, h⟩ | ⟨hel1, h⟩
      · rcases bind_elim h with ⟨u, sE, htr, h⟩ | ⟨e, sE, htr, hr, hs1⟩
        swap
        ·
          rw [hs1]
          exact tpres_trans p1 (gr_tpres ((trimGr f).1 b sB _ sE htr))
        have g3 : Gr sB sE := (trimGr f).1 b sB _ sE htr
        rcases ite_run_elim h with ⟨hdef, h⟩ | ⟨hdef, h⟩
        · rcases bind_elim h with ⟨s3v, sF, hgs3, h⟩ | ⟨e, sF, hgs3, hr, hs1⟩
          swap
          · exact (getS_not_error hgs3).elim
          obtain ⟨hs3, hsF⟩ := getS_ok_elim hgs3
          rw [hs3, hsF] at h
          rcases bind_elim h with ⟨inUse, sG, hdd, h⟩ | ⟨e, sG, hdd, hr, hs1⟩
          swap
          · exact (deleteDefsM_not_error hdd).elim
          have hsG : sG = (deleteDefinitionElementsM [b] sE).2 := (congrArg Prod.snd hdd).symm
          have p4 : TPres s sG := by
            rw [hsG]
            exact tpres_step_del1 p1 hbB g3 (deleteDefsM_pres b sE)
          rcases ite_run_elim h with ⟨hc0, h⟩ | ⟨hc0, h⟩ <;>
            · have hs : s1 = sG := (congrArg Prod.snd h).symm
              rw [hs]; exact p4
        · rcases bind_elim h with ⟨s3v, sF, hgs3, h⟩ | ⟨e, sF, hgs3, hr, hs1⟩
          swap
          · exact (getS_not_error hgs3).elim
          obtain ⟨hs3, hsF⟩ := getS_ok_elim hgs3
          rw [hs3, hsF] at h
          rcases bind_elim h with ⟨u2, sG, hde, h⟩ | ⟨e, sG, hde, hr, hs1⟩
          swap
          · exact (modifyImodel_not_error hde).elim
          have hsG : sG = (deleteElementM b sE).2 := (congrArg Prod.snd hde).symm
          have p4 : TPres s sG := by
            rw [hsG]
            exact tpres_step_del1 p1 hbB g3 (deleteElementM_pres b sE)
          have hs : s1 = sG := (congrArg Prod.snd h).symm
          rw [hs]; exact p4
      · rcases hsub : tryGetSubModel s.imodel b with _ | x
        · rw [hsub] at hel1
          exact (hel1 rfl).elim
        · have hx : x = b := tryGetSubModel_eq hsub
          rcases bind_elim h with ⟨s3v, sF, hgs3, h⟩ | ⟨e, sF, hgs3, hr, hs1⟩
          swap
          · exact (getS_not_error hgs3).elim
          obtain ⟨hs3, hsF⟩ := getS_ok_elim hgs3
          rw [hs3, hsF] at h
          have harg : (tryGetSubModel s.imodel b).getD 0 = b := by
            rw [hsub]; simpa using hx
          rcases bind_elim h with ⟨u1, sG, hdm, h⟩ | ⟨e, sG, hdm, hr, hs1⟩
          swap
          · exact (modifyImodel_not_error hdm).elim
          rw [harg] at hdm
          have hsG : sG = (deleteModelM b sB).2 := (congrArg Prod.snd hdm).symm
          rcases bind_elim h with ⟨u2, sH, hde, h⟩ | ⟨e, sH, hde, hr, hs1⟩
          swap
          · exact (modifyImodel_not_error hde).elim
          have hsH : sH = (deleteElementM b sG).2 := (congrArg Prod.snd hde).symm
          have p4 : TPres s sH := by
            rw [hsH, hsG]
            refine tpres_step_del1 p1 hbB (gr_refl sB) ⟨?_, ?_, ?_⟩
            · exact ((deleteElementM_pres b (deleteModelM b sB).2).1).trans
                ((deleteModelM_pres b sB).1)
            · intro id hne he
              exact (deleteElementM_pres b _).2.1 id hne
                ((deleteModelM_pres b sB).2.1 id hne he)
            · intro id hne hm
              exact (deleteElementM_pres b _).2.2 id hne
                ((deleteModelM_pres b sB).2.2 id hne hm)
          have hs : s1 = sH := (congrArg Prod.snd h).symm
          rw [hs]; exact p4

/-- C5: `trim` never deletes a touched entity, including its own argument.
`trim (f+1)` resolves its branch via `put f` (reaching the state `sA`) and
then trims; the run conserves every id touched at entry (`TPres s s1`) AND
every id touched after the argument resolution (`TPres sA s1`) — in
particular the argument: the resolved id `bid` is in `sA`'s touched set for
any element node and any model node over a non-sentinel modeled element
(`put` records it), and every id in `sA`'s touched set — so in particular
`bid` — survives to the final state with its element and model rows intact. -/
theorem claimC5_trim_conserves (f : Nat) (b : Branch) (s sA s1 : SyncState)
    (bid : Nat) (r : Except FirErr Trim)
    (hput : put f b s = (.ok bid, sA))
    (h : trim (f + 1) b s = (r, s1)) :
    TPres s s1 ∧ TPres sA s1 ∧
    ((∃ en, b = .elem (.node en)) ∨
     (∃ mn en, b = .model (.node mn) ∧ mn.modeledElement = .node en) →
      bid ∈ sA.touched) ∧
    (bid ∈ sA.touched →
      bid ∈ s1.touched ∧ (elemAt sA bid → elemAt s1 bid) ∧
      (modelAt sA bid → modelAt s1 bid)) := by
  simp only [trim] at h
  rcases bind_elim h with ⟨bid2, sA2, hput2, h2⟩ | ⟨e, sA2, hput2, hr, hs1⟩
  · rw [hput] at hput2
    have hb : bid2 = bid := by
      have hfst := congrArg Prod.fst hput2
      simp at hfst
      exact hfst.symm
    have hsA : sA2 = sA := (congrArg Prod.snd hput2).symm
    rw [hb, hsA] at h2
    have g1 : Gr s sA := (stepAll f).1 b s _ sA hput
    have p2 : TPres sA s1 := (trimTreeTPres f).1 bid sA r s1 h2
    refine ⟨tpres_trans (gr_tpres g1) p2, p2, ?_, ?_⟩
    · intro hb
      rcases hb with ⟨en, rfl⟩ | ⟨mn, en, rfl, hme⟩
      · exact put_elem_node_touched f en s sA bid hput
      · exact put_model_node_touched f mn en s sA bid hme hput
    · intro hm
      exact ⟨p2.1 bid hm, fun he => p2.2.1 bid hm he, fun hmo => p2.2.2 bid hm hmo⟩
  · rw [hput] at hput2
    simp at hput2

/-- C5 witness: the concrete trim of partition P (id 4, untouched at entry)
from `c4state` to `c4done`.  The internal `put` touches 4 (state `c7mid`);
the conclusion gives conservation of the entry-touched ids 6 and 2 AND of the
argument: 4 is touched after resolution, stays touched, and its element row
survives the trim. -/
theorem claimC5_witness :
    put 19 (.elem (.node partPN)) c4state = (.ok 4, c7mid) ∧
    (TPres c4state c4done ∧ TPres c7mid c4done ∧
     ((∃ en, Branch.elem (.node partPN) = .elem (.node en)) ∨
      (∃ mn en, Branch.elem (.node partPN) = .model (.node mn) ∧
        mn.modeledElement = .node en) →
       4 ∈ c7mid.touched) ∧
     (4 ∈ c7mid.touched →
       4 ∈ c4done.touched ∧ (elemAt c7mid 4 → elemAt c4done 4) ∧
       (modelAt c7mid 4 → modelAt c4done 4))) :=
  ⟨rfl, claimC5_trim_conserves 19 (.elem (.node partPN)) c4state c7mid c4done 4
    (.ok ⟨1, 0, 1⟩) rfl step_trimP⟩

end Fir
